import Mathlib

/-!
Verification of the `@esportsplus/workers` worker-pool runtime.

The definitions below are a shallow embedding of the TypeScript sources:
the pool scheduler (`pool.ts`), the worker-side dispatcher (`onmessage.ts`),
the transferable scanner (`transfer.ts`) and the proxy facade.  JavaScript
`Map`s are modelled as association lists with insertion-order set semantics,
JS arrays used as stacks keep their top at the head, and promise settlement
uses first-call-wins semantics, as the host's `Promise` does.
-/

namespace Workers

/-! ## Pool construction: MAX_CONCURRENCY and the `limit` option

Source (`pool.ts`):
`const MAX_CONCURRENCY = (IS_NODE ? require('os').cpus().length : navigator.hardwareConcurrency) - 1 || 1;`
`this.limit = options?.limit && options.limit < MAX_CONCURRENCY ? options.limit : MAX_CONCURRENCY;`
-/

/-- `(hc - 1) || 1`: the JS `||` takes the right operand exactly when
`hc - 1` is falsy, i.e. equals `0`. -/
def maxConcurrency (hc : Int) : Int :=
  if hc - 1 = 0 then 1 else hc - 1

/-- `options?.limit && options.limit < MAX_CONCURRENCY ? options.limit : MAX_CONCURRENCY`.
A missing or falsy (`0`) limit, or one not strictly below `maxC`, yields `maxC`. -/
def effectiveLimit (userLimit : Option Int) (maxC : Int) : Int :=
  match userLimit with
  | none => maxC
  | some l => if l ≠ 0 ∧ l < maxC then l else maxC

/-- The spec's `defaultMax = max(1, hardware_concurrency - 1)`. -/
def specDefaultMax (hc : Int) : Int := max 1 (hc - 1)

/-! ## Proxy facade: the `get` trap

Source (`pool.ts`, proxy handler):
```
get: (target, key, receiver) => {
    if (key === 'options' || key === 'path') {
        return Reflect.get(target, key);
    }
    target.path = target.path ? `${target.path}.${key}` : key;
    return receiver;
}
```
We model the trap's effect as the new accumulated path together with a flag
that is `true` exactly when the trap returns the receiver (the proxy `P`). -/
def proxyGet (path : String) (key : String) : String × Bool :=
  if key = "options" ∨ key = "path" then
    (path, false)
  else
    ((if path = "" then key else path ++ "." ++ key), true)

/-! ## Transferable scanner (`transfer.ts`)

Source:
```
function collectTransferables(value: unknown): Transferable[] {
    let result: Transferable[] = [], stack = [value];
    while (stack.length > 0) {
        let current = stack.pop();
        if (!current || typeof current !== 'object') continue;
        if (current instanceof ArrayBuffer || current instanceof MessagePort ||
            (… ImageBitmap …) || (… OffscreenCanvas …)) { result.push(current); continue; }
        if (Array.isArray(current)) {
            for (let i = 0; i < current.length; i++)
                if (current[i] && typeof current[i] === 'object') stack.push(current[i]);
        } else {
            for (let key in current) { let value = current[key];
                if (value && typeof value === 'object') stack.push(value); }
        }
    }
    return result;
}
```
Values are modelled as trees whose transferable leaves carry an identity tag:
two leaves with the same kind and tag model two positions referencing one
JS instance.  `prim` covers all primitives, `null` and `undefined` (the
falsy / non-object values the scanner skips). -/

/-- The four transferable kinds the scanner recognises. -/
inductive TKind where
  | buffer  -- ArrayBuffer
  | port    -- MessagePort
  | bitmap  -- ImageBitmap
  | canvas  -- OffscreenCanvas
  deriving DecidableEq, Repr

mutual

inductive JValue where
  | prim : JValue
  | tr : TKind → Nat → JValue
  | arr : JList → JValue
  | obj : JFields → JValue

inductive JList where
  | nil : JList
  | cons : JValue → JList → JList

inductive JFields where
  | fnil : JFields
  | fcons : String → JValue → JFields → JFields

end

/-- `value && typeof value === 'object'` for our value model. -/
def isObjLike : JValue → Bool
  | .prim => false
  | _ => true

/-- The elements of an array value, in index order. -/
def JList.toList : JList → List JValue
  | .nil => []
  | .cons v t => v :: JList.toList t

/-- The own enumerable property values of an object, in `for..in` order. -/
def JFields.vals : JFields → List JValue
  | .fnil => []
  | .fcons _ v t => v :: JFields.vals t

mutual

/-- Structural size of a value; termination measure for the scanner loop. -/
def jsizeV : JValue → Nat
  | .prim => 1
  | .tr _ _ => 1
  | .arr es => 1 + jsizeL es
  | .obj fs => 1 + jsizeF fs

def jsizeL : JList → Nat
  | .nil => 1
  | .cons v t => 1 + jsizeV v + jsizeL t

def jsizeF : JFields → Nat
  | .fnil => 1
  | .fcons _ v t => 1 + jsizeV v + jsizeF t

end

/-- Sum of element sizes over a work stack. -/
def sumSize (l : List JValue) : Nat := (l.map jsizeV).sum

theorem sumSize_nil : sumSize [] = 0 := rfl

theorem sumSize_cons (v : JValue) (l : List JValue) :
    sumSize (v :: l) = jsizeV v + sumSize l := by
  simp [sumSize]

theorem sumSize_append (a b : List JValue) :
    sumSize (a ++ b) = sumSize a + sumSize b := by
  simp [sumSize]

theorem sumSize_reverse (l : List JValue) : sumSize l.reverse = sumSize l := by
  simp only [sumSize, List.map_reverse]
  exact List.sum_reverse _

theorem sumSize_filter_le (p : JValue → Bool) (l : List JValue) :
    sumSize (l.filter p) ≤ sumSize l := by
  induction l with
  | nil => simp [sumSize]
  | cons v t ih =>
      by_cases hp : p v
      · rw [List.filter_cons, if_pos (by simp [hp]), sumSize_cons, sumSize_cons]
        exact Nat.add_le_add_left ih _
      · rw [List.filter_cons, if_neg (by simp [hp]), sumSize_cons]
        exact le_trans ih (Nat.le_add_left _ _)

theorem sumSize_toList_lt : (es : JList) → sumSize es.toList < jsizeL es
  | .nil => by simp [JList.toList, sumSize_nil, jsizeL]
  | .cons v t => by
      have ih := sumSize_toList_lt t
      rw [JList.toList, sumSize_cons, jsizeL]
      omega

theorem sumSize_vals_lt : (fs : JFields) → sumSize fs.vals < jsizeF fs
  | .fnil => by simp [JFields.vals, sumSize_nil, jsizeF]
  | .fcons _ v t => by
      have ih := sumSize_vals_lt t
      rw [JFields.vals, sumSize_cons, jsizeF]
      omega

/-- The scanner loop.  The work stack keeps its top at the head; pushing the
children of an array or object in index / key order therefore prepends them
reversed, exactly as `Array.prototype.push`/`pop` sequence them.  The result
list is in pop order, first-popped first, matching `result.push`. -/
def ctGo : List JValue → List (TKind × Nat)
  | [] => []
  | .prim :: rest => ctGo rest
  | .tr k tag :: rest => (k, tag) :: ctGo rest
  | .arr es :: rest => ctGo ((es.toList.filter isObjLike).reverse ++ rest)
  | .obj fs :: rest => ctGo ((fs.vals.filter isObjLike).reverse ++ rest)
termination_by stack => sumSize stack
decreasing_by
  · simp only [sumSize_cons, jsizeV]; omega
  · simp only [sumSize_cons, jsizeV]; omega
  · simp only [sumSize_append, sumSize_reverse, sumSize_cons, jsizeV]
    have h1 := sumSize_filter_le isObjLike es.toList
    have h2 := sumSize_toList_lt es
    omega
  · simp only [sumSize_append, sumSize_reverse, sumSize_cons, jsizeV]
    have h1 := sumSize_filter_le isObjLike fs.vals
    have h2 := sumSize_vals_lt fs
    omega

/-- `collectTransferables`, as in the source: run the loop on the stack
initialised with the input value. -/
def collectTransferables (v : JValue) : List (TKind × Nat) := ctGo [v]

/-! `occV h v` is the number of positions of the input at which the
transferable instance `h` occurs (structural occurrence count, independent
of the scanner). -/

mutual

/-- Occurrence count of transferable `h` in a value. -/
def occV (h : TKind × Nat) : JValue → Nat
  | .prim => 0
  | .tr k tag => if (k, tag) = h then 1 else 0
  | .arr es => occL h es
  | .obj fs => occF h fs

def occL (h : TKind × Nat) : JList → Nat
  | .nil => 0
  | .cons v t => occV h v + occL h t

def occF (h : TKind × Nat) : JFields → Nat
  | .fnil => 0
  | .fcons _ v t => occV h v + occF h t

end

theorem occ_sum_toList (h : TKind × Nat) : (es : JList) →
    (es.toList.map (occV h)).sum = occL h es
  | .nil => by simp [JList.toList, occL]
  | .cons v t => by
      have ih := occ_sum_toList h t
      simp [JList.toList, occL, ih]

theorem occ_sum_vals (h : TKind × Nat) : (fs : JFields) →
    (fs.vals.map (occV h)).sum = occF h fs
  | .fnil => by simp [JFields.vals, occF]
  | .fcons k v t => by
      have ih := occ_sum_vals h t
      simp [JFields.vals, occF, ih]

/-- Values the scanner refuses to push (non-objects) contain no
transferables, so filtering them away preserves occurrence sums. -/
theorem occ_sum_filter (h : TKind × Nat) (l : List JValue) :
    ((l.filter isObjLike).map (occV h)).sum = (l.map (occV h)).sum := by
  induction l with
  | nil => simp
  | cons v t ih =>
      cases v with
      | prim =>
          rw [List.filter_cons, if_neg (by simp [isObjLike])]
          simp [occV, ih]
      | tr k tag =>
          rw [List.filter_cons, if_pos (by simp [isObjLike])]
          simp [ih]
      | arr es =>
          rw [List.filter_cons, if_pos (by simp [isObjLike])]
          simp [ih]
      | obj fs =>
          rw [List.filter_cons, if_pos (by simp [isObjLike])]
          simp [ih]

/-- Number of occurrences of `p` in a handle list. -/
def hcount (p : TKind × Nat) : List (TKind × Nat) → Nat
  | [] => 0
  | q :: t => (if q = p then 1 else 0) + hcount p t

theorem hcount_eq_zero_iff (p : TKind × Nat) (l : List (TKind × Nat)) :
    hcount p l = 0 ↔ p ∉ l := by
  induction l with
  | nil => simp [hcount]
  | cons q t ih =>
      simp only [hcount, List.mem_cons]
      constructor
      · intro h
        by_cases hq : q = p
        · rw [if_pos hq] at h
          omega
        · rw [if_neg hq] at h
          simp only [Nat.zero_add] at h
          intro hc
          rcases hc with hc | hc
          · exact hq hc.symm
          · exact (ih.1 h) hc
      · intro h
        have hq : ¬ q = p := fun hx => h (Or.inl hx.symm)
        rw [if_neg hq, Nat.zero_add, ih]
        exact fun hc => h (Or.inr hc)

/-- A handle list in which every handle occurs at most once has no
duplicates. -/
theorem nodup_of_hcount_le_one (l : List (TKind × Nat))
    (h : ∀ p, hcount p l ≤ 1) : l.Nodup := by
  induction l with
  | nil => exact List.nodup_nil
  | cons q t ih =>
      rw [List.nodup_cons]
      constructor
      · have hq := h q
        rw [hcount, if_pos rfl] at hq
        rw [← hcount_eq_zero_iff q t]
        omega
      · refine ih (fun p => ?_)
        have hp := h p
        rw [hcount] at hp
        omega

/-- The scanner emits each transferable instance exactly as many times as it
occurs in the remaining work stack. -/
theorem ctGo_count (h : TKind × Nat) (stack : List JValue) :
    hcount h (ctGo stack) = (stack.map (occV h)).sum := by
  induction stack using ctGo.induct with
  | case1 => simp [ctGo, hcount]
  | case2 rest ih => simpa [ctGo, occV] using ih
  | case3 k tag rest ih =>
      rw [ctGo, hcount, ih]
      simp only [List.map_cons, List.sum_cons, occV]
  | case4 es rest ih =>
      rw [ctGo, ih]
      simp only [List.map_append, List.sum_append, List.map_reverse, List.sum_reverse,
        List.map_cons, List.sum_cons, occV]
      rw [occ_sum_filter, occ_sum_toList]
  | case5 fs rest ih =>
      rw [ctGo, ih]
      simp only [List.map_append, List.sum_append, List.map_reverse, List.sum_reverse,
        List.map_cons, List.sum_cons, occV]
      rw [occ_sum_filter, occ_sum_vals]

end Workers

namespace Workers

/-- Claim C3 counterexample-support / amended-support facts are proved
further below; first the concrete evaluation lemmas used throughout. -/
theorem maxConcurrency_pos (hc : Int) (h : 1 ≤ hc) : 1 ≤ maxConcurrency hc := by
  unfold maxConcurrency
  split
  · exact le_refl 1
  · omega

theorem maxConcurrency_eq_spec (hc : Int) (h : 1 ≤ hc) :
    maxConcurrency hc = specDefaultMax hc := by
  unfold maxConcurrency specDefaultMax
  split
  · omega
  · omega

end Workers

/-- **C3, counterexample.**  The claim says every user-supplied limit is
clamped into `[1, defaultMax]`, a negative limit in particular up to `1`.
With hardware concurrency 4 (`defaultMax = 3`) and user limit `-1`, the code
computes `-1 && -1 < 3 ? -1 : 3`, i.e. the effective limit is `-1`, which is
not in `[1, 3]`. -/
theorem C3_counterexample :
    Workers.effectiveLimit (some (-1)) (Workers.maxConcurrency 4) = -1 ∧
      ¬ (1 ≤ Workers.effectiveLimit (some (-1)) (Workers.maxConcurrency 4)) := by
  constructor
  · rfl
  · decide

/-- **C3, amended.**  The effective limit is `defaultMax` whenever the user
limit is absent, `0`, or not strictly below `defaultMax`; a nonzero limit
strictly below `defaultMax` is used verbatim, even when negative (there is no
clamp up to `1`).  Consequently the claimed interval `[1, defaultMax]` does
hold for every user limit `≥ 1`, and the default itself lies in it. -/
theorem C3_amended (hc : Int) (l : Int) (hhc : 1 ≤ hc) :
    (Workers.effectiveLimit none (Workers.maxConcurrency hc) = Workers.specDefaultMax hc) ∧
    (Workers.effectiveLimit (some 0) (Workers.maxConcurrency hc) = Workers.specDefaultMax hc) ∧
    (l ≠ 0 → l < Workers.specDefaultMax hc →
      Workers.effectiveLimit (some l) (Workers.maxConcurrency hc) = l) ∧
    (1 ≤ l →
      1 ≤ Workers.effectiveLimit (some l) (Workers.maxConcurrency hc) ∧
        Workers.effectiveLimit (some l) (Workers.maxConcurrency hc) ≤ Workers.specDefaultMax hc) := by
  have hmax := Workers.maxConcurrency_eq_spec hc hhc
  have hpos := Workers.maxConcurrency_pos hc hhc
  refine ⟨?_, ?_, ?_, ?_⟩
  · simpa [Workers.effectiveLimit] using hmax
  · simp [Workers.effectiveLimit, hmax]
  · intro h0 hlt
    rw [← hmax] at hlt
    simp [Workers.effectiveLimit, h0, hlt]
  · intro h1
    have hl0 : l ≠ 0 := by omega
    by_cases hlt : l < Workers.maxConcurrency hc
    · have he : Workers.effectiveLimit (some l) (Workers.maxConcurrency hc) = l := by
        simp [Workers.effectiveLimit, hl0, hlt]
      rw [he, ← hmax]
      exact ⟨h1, le_of_lt hlt⟩
    · have he : Workers.effectiveLimit (some l) (Workers.maxConcurrency hc) =
          Workers.maxConcurrency hc := by
        simp only [Workers.effectiveLimit, ne_eq]
        rw [if_neg]
        intro hc2
        exact hlt hc2.2
      rw [he, ← hmax]
      exact ⟨hpos, le_refl _⟩

/-- **C3, amended, witness.** -/
theorem C3_amended_witness :
    (1 : Int) ≤ 4 ∧
      (Workers.effectiveLimit none (Workers.maxConcurrency 4) = Workers.specDefaultMax 4) := by
  refine ⟨by decide, ?_⟩
  exact (C3_amended 4 2 (by decide)).1

/-- **C9, counterexample.**  The claim quantifies over every property key,
but the `get` trap special-cases `'options'` and `'path'`: reading `'path'`
returns the stored string (not the proxy) and does not extend the
accumulating path. -/
theorem C9_counterexample :
    Workers.proxyGet "a" "path" = ("a", false) ∧
      Workers.proxyGet "a" "path" ≠ ("a.path", true) := by
  constructor
  · rfl
  · decide

/-- **C9, amended.**  For every property key other than the reserved
`'options'` and `'path'`, a non-invocation read appends the key to the
accumulating dotted path (with a `.` separator once the path is nonempty)
and returns the proxy receiver itself, so chains compose. -/
theorem C9_amended (path key : String)
    (h1 : key ≠ "options") (h2 : key ≠ "path") :
    Workers.proxyGet path key =
      ((if path = "" then key else path ++ "." ++ key), true) := by
  unfold Workers.proxyGet
  simp [h1, h2]

/-- **C9, amended, witness.** -/
theorem C9_amended_witness :
    Workers.proxyGet "root.ns" "method" = ("root.ns.method", true) := by
  have h := C9_amended "root.ns" "method" (by decide) (by decide)
  simpa using h


/-- **C4, counterexample.**  The scanner keeps no visited set: an input
array that references the same `ArrayBuffer` instance (kind `buffer`,
identity tag `0`) from two positions yields that handle twice in the result,
so the returned handle sequence is not duplicate-free. -/
theorem C4_counterexample :
    Workers.collectTransferables
        (.arr (.cons (.tr .buffer 0) (.cons (.tr .buffer 0) .nil))) =
      [(Workers.TKind.buffer, 0), (Workers.TKind.buffer, 0)] ∧
    ¬ (Workers.collectTransferables
        (.arr (.cons (.tr .buffer 0) (.cons (.tr .buffer 0) .nil)))).Nodup := by
  have hv : Workers.collectTransferables
      (.arr (.cons (.tr .buffer 0) (.cons (.tr .buffer 0) .nil))) =
      [(Workers.TKind.buffer, 0), (Workers.TKind.buffer, 0)] := by
    simp [Workers.collectTransferables, Workers.ctGo, Workers.JList.toList,
      Workers.isObjLike, List.filter]
  refine ⟨hv, ?_⟩
  rw [hv]
  decide

/-- **C4, amended.**  The scanner emits every transferable instance exactly
as many times as it occurs in the input value; the result is therefore
duplicate-free exactly on inputs in which no single instance is referenced
from more than one position (the code itself deduplicates nothing). -/
theorem C4_amended (v : Workers.JValue)
    (h : ∀ p : Workers.TKind × Nat, Workers.occV p v ≤ 1) :
    (∀ p : Workers.TKind × Nat,
        Workers.hcount p (Workers.collectTransferables v) = Workers.occV p v) ∧
      (Workers.collectTransferables v).Nodup := by
  have hcnt : ∀ p : Workers.TKind × Nat,
      Workers.hcount p (Workers.collectTransferables v) = Workers.occV p v := by
    intro p
    rw [Workers.collectTransferables, Workers.ctGo_count]
    simp
  refine ⟨hcnt, Workers.nodup_of_hcount_le_one _ (fun p => ?_)⟩
  rw [hcnt p]
  exact h p

/-- **C4, amended, witness.** -/
theorem C4_amended_witness :
    (Workers.collectTransferables
        (.arr (.cons (.tr .buffer 3) (.cons .prim (.cons (.tr .port 5) .nil))))).Nodup := by
  refine (C4_amended _ (fun p => ?_)).2
  rcases p with ⟨k, t⟩
  simp only [Workers.occV, Workers.occL]
  by_cases h1 : (Workers.TKind.buffer, 3) = (k, t)
  · rw [if_pos h1, if_neg (fun h2 => by rw [← h1] at h2; cases h2)]
  · rw [if_neg h1]
    split <;> omega

namespace Workers

/-! ## Association-list model of JavaScript `Map`

`mapGet`/`mapSet`/`mapDel` model `Map.get`/`Map.set`/`Map.delete`:
insertion order is kept, `set` on an existing key replaces the value in
place, `delete` removes the entry. -/

/-- `Map.get`. -/
def mapGet {κ α : Type} [DecidableEq κ] (m : List (κ × α)) (k : κ) : Option α :=
  match m.find? (fun q => decide (q.1 = k)) with
  | some q => some q.2
  | none => none

/-- `Map.set`. -/
def mapSet {κ α : Type} [DecidableEq κ] (m : List (κ × α)) (k : κ) (v : α) :
    List (κ × α) :=
  if m.any (fun q => decide (q.1 = k)) then
    m.map (fun q => if q.1 = k then (k, v) else q)
  else
    m ++ [(k, v)]

/-- `Map.delete`. -/
def mapDel {κ α : Type} [DecidableEq κ] (m : List (κ × α)) (k : κ) :
    List (κ × α) :=
  m.filter (fun q => decide (¬ q.1 = k))

theorem mapGet_nil {κ α : Type} [DecidableEq κ] (k : κ) :
    mapGet ([] : List (κ × α)) k = none := rfl

theorem mapGet_cons {κ α : Type} [DecidableEq κ] (q : κ × α) (m : List (κ × α)) (k : κ) :
    mapGet (q :: m) k = if q.1 = k then some q.2 else mapGet m k := by
  by_cases h : q.1 = k
  · simp [mapGet, List.find?, h]
  · simp [mapGet, List.find?, h]

theorem mapGet_append {κ α : Type} [DecidableEq κ] (a b : List (κ × α)) (k : κ) :
    mapGet (a ++ b) k =
      match mapGet a k with
      | some v => some v
      | none => mapGet b k := by
  induction a with
  | nil => simp [mapGet_nil]
  | cons q t ih =>
      rw [List.cons_append, mapGet_cons, mapGet_cons]
      by_cases h : q.1 = k
      · simp [h]
      · simp [h, ih]

/-- Entries whose key differs from `k` are untouched by the in-place
replacement `Map.set` performs. -/
theorem mapGet_replace_ne {κ α : Type} [DecidableEq κ] (m : List (κ × α)) (k p : κ) (v : α)
    (hkp : ¬ k = p) :
    mapGet (m.map (fun q => if q.1 = k then (k, v) else q)) p = mapGet m p := by
  induction m with
  | nil => rfl
  | cons q t ih =>
      rw [List.map_cons, mapGet_cons, mapGet_cons]
      by_cases hq : q.1 = k
      · rw [if_pos hq]
        have h1 : ¬ (k, v).1 = p := hkp
        have h2 : ¬ q.1 = p := fun hx => hkp (hq ▸ hx)
        rw [if_neg h1, if_neg h2, ih]
      · rw [if_neg hq]
        by_cases hqp : q.1 = p
        · rw [if_pos hqp, if_pos hqp]
        · rw [if_neg hqp, if_neg hqp, ih]

theorem mapGet_replace_self {κ α : Type} [DecidableEq κ] (m : List (κ × α)) (k : κ) (v : α)
    (hany : m.any (fun q => decide (q.1 = k)) = true) :
    mapGet (m.map (fun q => if q.1 = k then (k, v) else q)) k = some v := by
  induction m with
  | nil => simp at hany
  | cons q t ih =>
      rw [List.map_cons, mapGet_cons]
      by_cases hq : q.1 = k
      · rw [if_pos hq]
        simp
      · rw [if_neg hq, if_neg hq]
        simp only [List.any_cons, Bool.or_eq_true, decide_eq_true_eq] at hany
        rcases hany with hx | hx
        · exact absurd hx hq
        · exact ih hx

theorem mapGet_eq_none_of_not_any {κ α : Type} [DecidableEq κ] (m : List (κ × α)) (k : κ)
    (hany : ¬ m.any (fun q => decide (q.1 = k)) = true) :
    mapGet m k = none := by
  induction m with
  | nil => rfl
  | cons q t ih =>
      simp only [List.any_cons, Bool.or_eq_true, decide_eq_true_eq] at hany
      rw [mapGet_cons, if_neg (fun hx => hany (Or.inl hx))]
      exact ih (fun hx => hany (Or.inr hx))

/-- `Map.set` then `Map.get`. -/
theorem mapGet_mapSet {κ α : Type} [DecidableEq κ] (m : List (κ × α)) (k p : κ) (v : α) :
    mapGet (mapSet m k v) p = if k = p then some v else mapGet m p := by
  unfold mapSet
  by_cases hany : m.any (fun q => decide (q.1 = k)) = true
  · rw [if_pos hany]
    by_cases hkp : k = p
    · subst hkp
      rw [if_pos rfl]
      exact mapGet_replace_self m k v hany
    · rw [if_neg hkp]
      exact mapGet_replace_ne m k p v hkp
  · rw [if_neg hany, mapGet_append]
    by_cases hkp : k = p
    · subst hkp
      rw [mapGet_eq_none_of_not_any m k hany]
      simp [mapGet_cons]
    · rw [if_neg hkp]
      cases hm : mapGet m p with
      | some v2 => rfl
      | none =>
          simp only []
          rw [mapGet_cons, if_neg (fun hx => hkp hx), mapGet_nil]

/-- `Map.delete` then `Map.get` on the deleted key. -/
theorem mapGet_mapDel_self {κ α : Type} [DecidableEq κ] (m : List (κ × α)) (k : κ) :
    mapGet (mapDel m k) k = none := by
  induction m with
  | nil => rfl
  | cons q t ih =>
      unfold mapDel
      rw [List.filter_cons]
      by_cases hq : q.1 = k
      · rw [if_neg (by simp [hq])]
        exact ih
      · rw [if_pos (by simp [hq]), mapGet_cons, if_neg hq]
        exact ih

end Workers

namespace Workers

/-! ## Worker-side dispatcher (`onmessage.ts`)

Source (abridged):
```
worker.onmessage = async (e) => {
    let data = e.data;
    if (!data || !data.uuid) return;
    if (data.release) {
        let handler = cleanups.get(data.uuid);
        cleanups.delete(data.uuid);
        if (handler) {
            try { let result = handler();
                  worker.postMessage({ result, uuid: data.uuid }, …); }
            catch (err) { worker.postMessage({ error, uuid: data.uuid }); }
        } else { worker.postMessage({ result: undefined, uuid: data.uuid }); }
        return;
    }
    if (!data.path) return;
    let { args, path, uuid } = data, action = map.get(path);
    if (!action) { worker.postMessage({ error: "… path does not exist …", uuid }); return; }
    let cleanup, context = { dispatch: …, release: …, retain: … },
        released = false, retained = false;
    try {
        let result = await action.call(context, ...args);
        if (retained) { if (cleanup) cleanups.set(uuid, cleanup);
                        worker.postMessage({ retained: true, uuid }); }
        else worker.postMessage({ result, uuid }, …);
    }
    catch (err) { worker.postMessage({ error, uuid }); }
};
```
A user action is modelled by the observable behaviour of one invocation: the
ordered context calls it performs (`dispatch` / `retain` / `release`) and its
final outcome (return value or thrown error).  Error payloads are modelled by
their message string; `undefined` results by `none`. -/

/-- Single quote character, used in the path-miss error message. -/
def squote : String := String.singleton (Char.ofNat 39)

/-- Result of running a piece of user code: return a value (`none` =
`undefined`) or throw, carrying the stringified error. -/
inductive JsResult where
  | ok : Option Nat → JsResult
  | thrown : String → JsResult
  deriving DecidableEq

/-- Behaviour of a registered cleanup callback. -/
abbrev CleanupBeh : Type := JsResult

/-- One context interaction performed by a running action. -/
inductive CtxCall where
  | dispatchC : String → Nat → CtxCall
  | retainC : Option CleanupBeh → CtxCall
  | releaseC : Option Nat → CtxCall
  deriving DecidableEq

/-- Observable behaviour of one action invocation. -/
structure ActBeh where
  calls : List CtxCall
  outcome : JsResult
  deriving DecidableEq

/-- Frames the worker posts back to the pool. -/
inductive OFrame where
  | result : Nat → Option Nat → OFrame        -- {result, uuid}
  | errorF : Nat → String → OFrame            -- {error, uuid}
  | eventF : Nat → String → Nat → OFrame      -- {data, event, uuid}
  | retainedF : Nat → OFrame                  -- {retained: true, uuid}
  deriving DecidableEq

/-- An inbound frame as the handler inspects it: `present` is the truthiness
of `data` itself; absent or falsy fields are `none` / `false`. -/
structure WFrame where
  present : Bool
  uuid : Option Nat
  release : Bool
  path : Option String
  args : List Nat
  deriving DecidableEq

/-- State of one invocation while the action body runs: the `released` /
`retained` / `cleanup` locals of the handler, the dispatcher-global
`cleanups` map, and the frames posted so far. -/
structure InvState where
  released : Bool
  retained : Bool
  cleanup : Option CleanupBeh
  cleanups : List (Nat × CleanupBeh)
  out : List OFrame
  deriving DecidableEq

/-- The context's `dispatch(event, data)`. -/
def dispatchCall (uuid : Nat) (event : String) (d : Nat) (st : InvState) : InvState :=
  { st with out := st.out ++ [.eventF uuid event d] }

/-- The context's `release(result?)`: guarded by the `released` flag, the
first call deletes the cleanup entry and posts `{result, uuid}`; later calls
do nothing. -/
def releaseCall (uuid : Nat) (r : Option Nat) (st : InvState) : InvState :=
  if st.released then st
  else
    { st with
        released := true,
        cleanups := mapDel st.cleanups uuid,
        out := st.out ++ [.result uuid r] }

/-- The context's `retain(cleanup?)`. -/
def retainCall (c : Option CleanupBeh) (st : InvState) : InvState :=
  { st with retained := true, cleanup := c }

/-- Replay the context calls an action performs, in order. -/
def runCalls (uuid : Nat) : List CtxCall → InvState → InvState
  | [], st => st
  | .dispatchC e d :: t, st => runCalls uuid t (dispatchCall uuid e d st)
  | .retainC c :: t, st => runCalls uuid t (retainCall c st)
  | .releaseC r :: t, st => runCalls uuid t (releaseCall uuid r st)

/-- The handler's completion step (the `try`/`catch` around the action):
an error posts `{error, uuid}`; a normal return posts `{retained: true,
uuid}` (registering the cleanup) when `retain` was called, and
`{result, uuid}` otherwise. -/
def finishInvocation (uuid : Nat) (outcome : JsResult)
    (st : InvState) : InvState :=
  match outcome with
  | .thrown e => { st with out := st.out ++ [.errorF uuid e] }
  | .ok res =>
      if st.retained then
        { st with
            cleanups :=
              match st.cleanup with
              | some c => mapSet st.cleanups uuid c
              | none => st.cleanups,
            out := st.out ++ [.retainedF uuid] }
      else
        { st with out := st.out ++ [.result uuid res] }

/-- The worker-side `onmessage` handler: given the flattened action table and
the dispatcher-global cleanup map, consume one inbound frame and produce the
new cleanup map plus every frame posted while handling it. -/
def workerHandler (map : List (String × ActBeh)) (cleanups : List (Nat × CleanupBeh))
    (fr : WFrame) : List (Nat × CleanupBeh) × List OFrame :=
  if ¬ fr.present then (cleanups, [])
  else
    match fr.uuid with
    | none => (cleanups, [])
    | some u =>
      if fr.release then
        let handler := mapGet cleanups u
        let cl := mapDel cleanups u
        match handler with
        | some beh =>
            match beh with
            | .ok r => (cl, [.result u r])
            | .thrown e => (cl, [.errorF u e])
        | none => (cl, [.result u none])
      else
        match fr.path with
        | none => (cleanups, [])
        | some p =>
            match mapGet map p with
            | none =>
                (cleanups,
                  [.errorF u ("@esportsplus/workers: path does not exist " ++
                    squote ++ p ++ squote)])
            | some beh =>
                let st1 := finishInvocation u beh.outcome
                  (runCalls u beh.calls
                    { released := false, retained := false, cleanup := none,
                      cleanups := cleanups, out := [] })
                (st1.cleanups, st1.out)

/-- Each context call only appends to the posted-frame list. -/
theorem runCalls_out (uuid : Nat) (calls : List CtxCall) (st : InvState) :
    ∃ l, (runCalls uuid calls st).out = st.out ++ l := by
  induction calls generalizing st with
  | nil => exact ⟨[], by simp [runCalls]⟩
  | cons c t ih =>
      cases c with
      | dispatchC e d =>
          rcases ih (dispatchCall uuid e d st) with ⟨l, hl⟩
          exact ⟨[.eventF uuid e d] ++ l, by
            rw [runCalls, hl]
            simp [dispatchCall]⟩
      | retainC c0 =>
          rcases ih (retainCall c0 st) with ⟨l, hl⟩
          exact ⟨l, by rw [runCalls, hl]; simp [retainCall]⟩
      | releaseC r =>
          rcases ih (releaseCall uuid r st) with ⟨l, hl⟩
          by_cases hrel : st.released
          · exact ⟨l, by rw [runCalls, hl, releaseCall, if_pos hrel]⟩
          · exact ⟨[.result uuid r] ++ l, by
              rw [runCalls, hl, releaseCall, if_neg hrel]
              simp⟩

/-- The completion step posts exactly one more frame. -/
theorem finishInvocation_out (uuid : Nat) (o : JsResult)
    (st : InvState) : ∃ f, (finishInvocation uuid o st).out = st.out ++ [f] := by
  cases o with
  | thrown e => exact ⟨.errorF uuid e, rfl⟩
  | ok res =>
      by_cases hr : st.retained
      · exact ⟨.retainedF uuid, by simp [finishInvocation, hr]⟩
      · exact ⟨.result uuid res, by simp [finishInvocation, hr]⟩

end Workers

namespace Workers

/-- `release` on an invocation that already released is a no-op. -/
theorem releaseCall_of_released (u : Nat) (r : Option Nat) (st : InvState)
    (h : st.released = true) : releaseCall u r st = st := by
  unfold releaseCall
  rw [if_pos (by simp [h])]

theorem foldl_releaseCall_of_released (u : Nat) (rs : List (Option Nat)) (st : InvState)
    (h : st.released = true) :
    rs.foldl (fun s r => releaseCall u r s) st = st := by
  induction rs with
  | nil => rfl
  | cons r t ih =>
      rw [List.foldl_cons, releaseCall_of_released u r st h]
      exact ih

end Workers

/-- **C6, counterexample.**  The claim says every code path of the worker
message handler sends at least one response frame, including malformed
frames.  A frame that is truthy and carries a `uuid` but neither `release`
nor `path` hits `if (!data.path) return;`: the handler returns without
posting anything. -/
theorem C6_counterexample :
    (Workers.workerHandler [] []
        { present := true, uuid := some 1, release := false, path := none,
          args := [] }).2 = [] ∧
      ¬ (1 ≤ (Workers.workerHandler [] []
          { present := true, uuid := some 1, release := false, path := none,
            args := [] }).2.length) := by
  constructor
  · rfl
  · decide

/-- **C6, amended.**  The handler never throws (it is a total function of
the inbound frame; action and cleanup errors are caught and turned into
error frames), and it posts at least one response frame exactly when the
frame is truthy, carries a truthy `uuid`, and carries either `release` or a
truthy `path`; frames failing those guards are silently ignored. -/
theorem C6_amended (map : List (String × Workers.ActBeh))
    (cleanups : List (Nat × Workers.CleanupBeh)) (fr : Workers.WFrame) :
    (Workers.workerHandler map cleanups fr).2 ≠ [] ↔
      (fr.present = true ∧ fr.uuid ≠ none ∧
        (fr.release = true ∨ fr.path ≠ none)) := by
  cases hp : fr.present with
  | false => simp [Workers.workerHandler, hp]
  | true =>
      cases hu : fr.uuid with
      | none => simp [Workers.workerHandler, hp, hu]
      | some u =>
          cases hr : fr.release with
          | true =>
              cases hc : Workers.mapGet cleanups u with
              | none => simp [Workers.workerHandler, hp, hu, hr, hc]
              | some beh =>
                  cases beh with
                  | ok r => simp [Workers.workerHandler, hp, hu, hr, hc]
                  | thrown e => simp [Workers.workerHandler, hp, hu, hr, hc]
          | false =>
              cases hpath : fr.path with
              | none => simp [Workers.workerHandler, hp, hu, hr, hpath]
              | some p =>
                  cases hact : Workers.mapGet map p with
                  | none => simp [Workers.workerHandler, hp, hu, hr, hpath, hact]
                  | some beh =>
                      have hout : (Workers.workerHandler map cleanups fr).2 ≠ [] := by
                        rcases Workers.runCalls_out u beh.calls
                            { released := false, retained := false, cleanup := none,
                              cleanups := cleanups, out := [] } with ⟨l, hl⟩
                        rcases Workers.finishInvocation_out u beh.outcome
                            (Workers.runCalls u beh.calls
                              { released := false, retained := false, cleanup := none,
                                cleanups := cleanups, out := [] }) with ⟨f, hf⟩
                        simp only [Workers.workerHandler, hp, hu, hr, hpath, hact]
                        simp [hf, hl]
                      constructor
                      · intro _
                        exact ⟨rfl, by simp [hu], Or.inr (by simp [hpath])⟩
                      · intro _
                        exact hout

/-- **C10.**  Within one invocation, the `release` closure is idempotent
after its first call: starting unreleased, a nonempty sequence of `release`
calls posts exactly one `{uuid, result}` frame (carrying the first call's
argument), deletes any registered cleanup entry for the invocation's uuid,
and leaves every later call a no-op that posts nothing. -/
theorem C10_release_once (u : Nat) (r0 : Option Nat) (rs : List (Option Nat))
    (st : Workers.InvState) (h : st.released = false) :
    ((r0 :: rs).foldl (fun s r => Workers.releaseCall u r s) st).out
        = st.out ++ [Workers.OFrame.result u r0] ∧
      Workers.mapGet
        ((r0 :: rs).foldl (fun s r => Workers.releaseCall u r s) st).cleanups u = none ∧
      ((r0 :: rs).foldl (fun s r => Workers.releaseCall u r s) st).released = true := by
  have h1 : Workers.releaseCall u r0 st =
      { st with released := true,
                cleanups := Workers.mapDel st.cleanups u,
                out := st.out ++ [Workers.OFrame.result u r0] } := by
    unfold Workers.releaseCall
    rw [if_neg (by simp [h])]
  rw [List.foldl_cons, h1,
    Workers.foldl_releaseCall_of_released u rs _ (by rfl)]
  refine ⟨rfl, ?_, rfl⟩
  exact Workers.mapGet_mapDel_self st.cleanups u

/-- **C10, witness.** -/
theorem C10_release_once_witness :
    ((([some 1, some 2, none] : List (Option Nat)).foldl
        (fun s r => Workers.releaseCall 7 r s)
        { released := false, retained := true, cleanup := none,
          cleanups := [(7, Workers.JsResult.ok (some 3))], out := [] }).out
      = [Workers.OFrame.result 7 (some 1)]) := by
  have h := C10_release_once 7 (some 1) [some 2, none]
    { released := false, retained := true, cleanup := none,
      cleanups := [(7, Workers.JsResult.ok (some 3))], out := [] } rfl
  simpa using h.1

namespace Workers

/-! ## Flattening the nested action map (`onmessage.ts`)

Source:
```
function flatten(obj: Actions, prefix: string, map: Map<string, Function>): Map<string, Function> {
    for (let key in obj) {
        let path = prefix ? `${prefix}.${key}` : key,
            value = obj[key];
        if (!value) continue;
        if (typeof value === 'function') map.set(path, value);
        else if (typeof value === 'object') flatten(value as Actions, path, map);
    }
    return map;
}
```
An action map entry is a function leaf (identified by a number), a nested
mapping, or some other value; `other b` stands for a non-function
non-mapping value of truthiness `b` — falsy values hit `if (!value)
continue`, truthy non-function non-object values match no branch, so both are
ignored. -/

mutual

inductive AVal where
  | fn : Nat → AVal
  | node : AFields → AVal
  | other : Bool → AVal

inductive AFields where
  | fnil : AFields
  | fcons : String → AVal → AFields → AFields

end

mutual

/-- Structural size; termination measure for `flatten` and `leaves`. -/
def asizeV : AVal → Nat
  | .fn _ => 1
  | .other _ => 1
  | .node fs => 1 + asizeF fs

def asizeF : AFields → Nat
  | .fnil => 1
  | .fcons _ v t => 1 + asizeV v + asizeF t

end

/-- `prefix ? `${prefix}.${key}` : key`. -/
def dottedPath (pre k : String) : String :=
  if pre = "" then k else pre ++ "." ++ k

/-- `flatten` from the source, over the `Map` model: iterate the entries in
property order, register function leaves under their dotted path with
`Map.set`, recurse into mappings, skip everything else. -/
def flatten : AFields → String → List (String × Nat) → List (String × Nat)
  | .fnil, _, m => m
  | .fcons k v t, pre, m =>
      match v with
      | .other _ => flatten t pre m
      | .fn id => flatten t pre (mapSet m (dottedPath pre k) id)
      | .node fs => flatten t pre (flatten fs (dottedPath pre k) m)
termination_by fs _ _ => asizeF fs
decreasing_by
  · simp only [asizeF, asizeV]; omega
  · simp only [asizeF, asizeV]; omega
  · simp only [asizeF, asizeV]; omega
  · simp only [asizeF, asizeV]; omega

/-- The function leaves of an action map, as `(dotted path, function)`
pairs in traversal order (the spec-side description of what should be
registered). -/
def leaves : AFields → String → List (String × Nat)
  | .fnil, _ => []
  | .fcons k v t, pre =>
      (match v with
       | .fn id => [(dottedPath pre k, id)]
       | .node fs => leaves fs (dottedPath pre k)
       | .other _ => []) ++ leaves t pre
termination_by fs _ => asizeF fs
decreasing_by
  · simp only [asizeF, asizeV]; omega
  · simp only [asizeF, asizeV]; omega

/-- Last-write-wins lookup in a `(path, function)` list: the latest entry
for `p` wins. -/
def findLast : List (String × Nat) → String → Option Nat
  | [], _ => none
  | (k, v) :: t, p =>
      match findLast t p with
      | some r => some r
      | none => if k = p then some v else none

theorem findLast_append (a b : List (String × Nat)) (p : String) :
    findLast (a ++ b) p =
      match findLast b p with
      | some r => some r
      | none => findLast a p := by
  induction a with
  | nil =>
      cases hb : findLast b p with
      | some r => simp [findLast, hb]
      | none => simp [findLast, hb]
  | cons q t ih =>
      rcases q with ⟨k, v⟩
      rw [List.cons_append, findLast, ih, findLast]
      cases hb : findLast b p with
      | some r => rfl
      | none => rfl

/-- `flatten` computes exactly the last-write-wins table of the function
leaves, layered over the incoming map. -/
theorem flatten_mapGet (fs : AFields) (pre : String) (m : List (String × Nat))
    (p : String) :
    mapGet (flatten fs pre m) p =
      match findLast (leaves fs pre) p with
      | some v => some v
      | none => mapGet m p := by
  induction fs, pre, m using flatten.induct generalizing p with
  | case1 pre m =>
      simp [flatten, leaves, findLast]
  | case2 k t pre m b ih =>
      rw [flatten, leaves, ih]
      rw [List.nil_append]
  | case3 k t pre m id ih =>
      rw [flatten, leaves, ih, findLast_append, findLast, findLast]
      cases ht : findLast (leaves t pre) p with
      | some r => rfl
      | none =>
          simp only []
          rw [mapGet_mapSet]
          by_cases hp : dottedPath pre k = p
          · rw [if_pos hp, if_pos hp]
          · rw [if_neg hp, if_neg hp]
  | case4 k t pre m fs2 ih2 ih =>
      rw [flatten, leaves, ih, findLast_append, ih2]
      cases ht : findLast (leaves t pre) p with
      | some r => rfl
      | none => rfl

end Workers

/-- **C8.**  The flattened action table registers exactly the function
leaves of the nested action map under their dotted paths: looking up any
path in `flatten(actions, "", new Map())` yields the function of the
latest-written leaf with that dotted path, and `none` when no function leaf
has that path — non-function non-mapping values contribute nothing, and on
collisions the entry written later wins. -/
theorem C8_flatten_leaves (actions : Workers.AFields) (p : String) :
    Workers.mapGet (Workers.flatten actions "" []) p =
      Workers.findLast (Workers.leaves actions "") p := by
  rw [Workers.flatten_mapGet]
  cases h : Workers.findLast (Workers.leaves actions "") p with
  | some v => rfl
  | none => rfl


namespace Workers

/-! ## Pool scheduler (`pool.ts`)

The pool is single-threaded and event-driven: every observable transition is
one handler running to completion — a worker `onmessage`/`onerror` callback,
a timeout timer firing, an abort listener firing, an idle timer firing, a
`schedule` call, or a `shutdown` call.  `step` applies one such handler,
translated statement by statement from the source; every single field
mutation in the source is one small named helper here.

Representation choices:
* worker objects and task objects are identified by numeric ids; the task
  heap (`store`) holds every task record ever created, keyed by its uuid —
  the scheduler's `tasks` Map is the key list `taskIds` over that heap;
* `available` keeps the top of the JS array (its end, where `push`/`pop`
  operate) at the head of the list;
* `uuid()` from `@esportsplus/utilities` never returns an id already in
  use; `schedule` therefore ignores a colliding request (such a call cannot
  occur at runtime);
* a task's `timeoutId` is modelled by the flag `timerArmed`: `setTimeout`
  arms it, `clearTimeout` disarms it, and the timer event only fires while
  it is armed;
* promise settlement is first-call-wins, as for the host's `Promise`:
  `trySettle` records the first outcome and ignores later calls;
* `log` records terminate / create / effective-settlement actions in
  program order; `sent` records every `postMessage` to a worker;
* the external `@esportsplus/queue` is modelled as an unbounded FIFO (its
  capacity-64 overflow behaviour lives outside this repository). -/

abbrev WId := Nat
abbrev TId := Nat

/-- A settlement outcome: `resolve`d value or `reject`ed error message. -/
inductive Outcome where
  | ok : Option Nat → Outcome
  | err : String → Outcome
  deriving DecidableEq

/-- One task object (`Task` in `types.ts`), as far as the scheduler reads
and writes it. -/
structure TaskRec where
  aborted : Bool
  retained : Bool
  timeout : Nat
  timerArmed : Bool
  hasSignal : Bool
  listenerActive : Bool
  settled : Option Outcome
  path : String
  values : List Nat
  deriving DecidableEq

/-- Frames the pool posts to a worker. -/
inductive PFrame where
  | request : TId → String → List Nat → PFrame   -- {args, path, uuid}
  | releaseF : TId → PFrame                       -- {release: true, uuid}
  deriving DecidableEq

/-- Externally visible actions, for ordering statements. -/
inductive LogEvt where
  | terminated : WId → LogEvt
  | created : WId → LogEvt
  | settledEvt : TId → LogEvt
  deriving DecidableEq

structure PoolState where
  available : List WId
  workers : List WId
  pending : List (WId × TId)
  taskIds : List TId
  queue : List TId
  store : List (TId × TaskRec)
  idleTimers : List WId
  idleTimeout : Nat
  limit : Int
  completed : Nat
  cleanup : Bool
  nextW : WId
  sent : List (WId × PFrame)
  log : List LogEvt
  deriving DecidableEq

/-! ### Atomic state updates (one per mutated field in the source) -/

/-- Read a task object off the heap. -/
def getTask (s : PoolState) (t : TId) : Option TaskRec := mapGet s.store t

/-- Mutate the task object `t` in place. -/
def setTask (s : PoolState) (t : TId) (f : TaskRec → TaskRec) : PoolState :=
  { s with store := s.store.map (fun q => if q.1 = t then (t, f q.2) else q) }

/-- Settlement state of a store. -/
def settledIn (store : List (TId × TaskRec)) (t : TId) : Option Outcome :=
  match mapGet store t with
  | some r => r.settled
  | none => none

/-- The settlement state of a task's handle. -/
def taskSettled (s : PoolState) (t : TId) : Option Outcome := settledIn s.store t

def pushAvailable (s : PoolState) (w : WId) : PoolState :=
  { s with available := w :: s.available }
def setAvailable (s : PoolState) (a : List WId) : PoolState :=
  { s with available := a }
def availErase (s : PoolState) (w : WId) : PoolState :=
  { s with available := s.available.erase w }
def workersAdd (s : PoolState) (w : WId) : PoolState :=
  { s with workers := s.workers ++ [w] }
def workersErase (s : PoolState) (w : WId) : PoolState :=
  { s with workers := s.workers.erase w }
def pendingSet (s : PoolState) (w : WId) (t : TId) : PoolState :=
  { s with pending := mapSet s.pending w t }
def pendingDel (s : PoolState) (w : WId) : PoolState :=
  { s with pending := mapDel s.pending w }
def taskIdsAdd (s : PoolState) (t : TId) : PoolState :=
  { s with taskIds := if s.taskIds.contains t then s.taskIds else s.taskIds ++ [t] }
def taskIdsDel (s : PoolState) (t : TId) : PoolState :=
  { s with taskIds := s.taskIds.filter (fun x => decide (¬ x = t)) }
def setQueue (s : PoolState) (q : List TId) : PoolState :=
  { s with queue := q }
def queueAdd (s : PoolState) (t : TId) : PoolState :=
  { s with queue := s.queue ++ [t] }
def idleDel (s : PoolState) (w : WId) : PoolState :=
  { s with idleTimers := s.idleTimers.filter (fun x => decide (¬ x = w)) }
def idleArm (s : PoolState) (w : WId) : PoolState :=
  { s with idleTimers := if s.idleTimers.contains w then s.idleTimers else s.idleTimers ++ [w] }
def idleClear (s : PoolState) : PoolState :=
  { s with idleTimers := [] }
def bumpCompleted (s : PoolState) : PoolState :=
  { s with completed := s.completed + 1 }
def bumpNextW (s : PoolState) : PoolState :=
  { s with nextW := s.nextW + 1 }
def setCleanup (s : PoolState) : PoolState :=
  { s with cleanup := true }
def sendFrame (s : PoolState) (w : WId) (f : PFrame) : PoolState :=
  { s with sent := s.sent ++ [(w, f)] }
def sendFrames (s : PoolState) (fs : List (WId × PFrame)) : PoolState :=
  { s with sent := s.sent ++ fs }
def logTerminated (s : PoolState) (w : WId) : PoolState :=
  { s with log := s.log ++ [.terminated w] }
def logCreated (s : PoolState) (w : WId) : PoolState :=
  { s with log := s.log ++ [.created w] }
def logSettled (s : PoolState) (t : TId) : PoolState :=
  { s with log := s.log ++ [.settledEvt t] }
def logTerminatedAll (s : PoolState) : PoolState :=
  { s with log := s.log ++ s.workers.map (fun w => LogEvt.terminated w) }
def storeAdd (s : PoolState) (t : TId) (r : TaskRec) : PoolState :=
  { s with store := (t, r) :: s.store }

/-! ### The scheduler's operations -/

/-- `resolve`/`reject` on the task's promise: the first call settles, later
calls are ignored (host `Promise` semantics). -/
def trySettle (s : PoolState) (t : TId) (o : Outcome) : PoolState :=
  if (getTask s t).isSome ∧ taskSettled s t = none then
    logSettled (setTask s t (fun r => { r with settled := some o })) t
  else s

/-- `clearTaskTimeout(task)`. -/
def clearTaskTimeout (s : PoolState) (t : TId) : PoolState :=
  setTask s t (fun r => { r with timerArmed := false })

/-- `clearIdleTimer(worker)`. -/
def clearIdleTimer (s : PoolState) (w : WId) : PoolState := idleDel s w

/-- `createWorker()` (worker construction and bookkeeping; its `onmessage`
and `onerror` handlers are the `msg`/`werror` events below). -/
def createWorker (s : PoolState) : WId × PoolState :=
  (s.nextW, logCreated (bumpNextW (workersAdd s s.nextW)) s.nextW)

/-- `markAvailable(worker)`: push onto the ready stack and, when the idle
timeout is enabled, start an idle timer. -/
def markAvailable (s : PoolState) (w : WId) : PoolState :=
  let s1 := pushAvailable s w
  if s1.idleTimeout = 0 then s1 else idleArm s1 w

/-- `replaceWorker(worker)`: clear its idle timer, splice it out of
`workers` and `available`, and terminate it. -/
def replaceWorker (s : PoolState) (w : WId) : PoolState :=
  logTerminated (availErase (workersErase (clearIdleTimer s w) w) w) w

/-- `task.aborted` as the scheduler reads it. -/
def taskAborted (s : PoolState) (t : TId) : Bool :=
  match getTask s t with
  | some r => r.aborted
  | none => false

/-- `task.retained`. -/
def taskRetained (s : PoolState) (t : TId) : Bool :=
  match getTask s t with
  | some r => r.retained
  | none => false

/-- `setTimeout(...)` in `dispatch`: arm the task's timeout timer when
`task.timeout && task.timeout > 0`. -/
def armTimer (s : PoolState) (t : TId) : PoolState :=
  match getTask s t with
  | some r => if 0 < r.timeout then setTask s t (fun r => { r with timerArmed := true }) else s
  | none => s

/-- The request frame for a task. -/
def requestFrame (s : PoolState) (t : TId) : PFrame :=
  match getTask s t with
  | some r => .request t r.path r.values
  | none => .request t "" []

/-- The body of `dispatch` past the aborted check: record the task as
pending and tracked, arm its timeout timer, post the request frame. -/
def dispatchNA (s : PoolState) (w : WId) (t : TId) : PoolState :=
  let s1 := armTimer (taskIdsAdd (pendingSet (clearIdleTimer s w) w t) t) t
  sendFrame s1 w (requestFrame s1 t)

/-- The `while (task && task.aborted) task = this.queue.next();` loop:
discard the aborted prefix of the queue, returning the first live task and
the remaining queue. -/
def drainAborted (s : PoolState) : List TId → Option TId × List TId
  | [] => (none, [])
  | t :: rest => if taskAborted s t then drainAborted s rest else (some t, rest)

/-- `processQueue()`. -/
def processQueue (s : PoolState) : PoolState :=
  if s.cleanup ∨ s.available = [] ∨ s.queue = [] then s
  else
    match s.available with
    | [] => s
    | w :: avRest =>
        match drainAborted s s.queue with
        | (none, q2) => setQueue s q2
        | (some t, q2) => dispatchNA (setQueue (setAvailable s avRest) q2) w t

/-- `dispatch(worker, task)`. -/
def dispatch (s : PoolState) (w : WId) (t : TId) : PoolState :=
  if taskAborted s t then processQueue (markAvailable s w)
  else dispatchNA s w t

/-- The registered shutdown continuation: terminate every worker and clear
`available`, `workers` and `tasks`. -/
def cleanupRun (s : PoolState) : PoolState :=
  { logTerminatedAll s with available := [], workers := [], taskIds := [] }

/-- An inbound worker frame as `onmessage` inspects it. -/
structure InFrame where
  present : Bool
  uuid : Option TId
  event : Option String
  retainedFlag : Bool
  error : Option String
  result : Option Nat
  deriving DecidableEq

/-- The worker `onmessage` handler installed by `createWorker`. -/
def onMessage (s : PoolState) (w : WId) (fr : InFrame) : PoolState :=
  if ¬ fr.present then s
  else
    match fr.uuid with
    | none => s
    | some u =>
      if ¬ s.taskIds.contains u then s
      else
        match fr.event with
        | some _ => s    -- task.promise.dispatch(event, data): listener fan-out only
        | none =>
          if fr.retainedFlag then
            -- clearTaskTimeout; task.retained = true; task.worker = worker;
            -- task.promise.on('release', …)
            setTask s u (fun r => { r with timerArmed := false, retained := true })
          else
            let s4 := bumpCompleted (taskIdsDel (pendingDel (clearTaskTimeout s u) w) u)
            let s5 :=
              match fr.error with
              | some m => trySettle s4 u (.err m)
              | none => trySettle s4 u (.ok fr.result)
            let s6 := markAvailable s5 w
            let s7 := if s6.cleanup ∧ s6.pending = [] then cleanupRun s6 else s6
            processQueue s7

/-- The worker `onerror` handler installed by `createWorker`. -/
def onError (s : PoolState) (w : WId) (msg : Option String) : PoolState :=
  let s1 :=
    match mapGet s.pending w with
    | some t =>
        trySettle (taskIdsDel (pendingDel (clearTaskTimeout s t) w) t) t
          (.err (match msg with
                 | some m => m
                 | none => "@esportsplus/workers: worker error"))
    | none => s
  processQueue (replaceWorker s1 w)

/-- The timeout timer armed by `dispatch` for `(worker, task)`: it can only
fire while armed, and checks `pending.has(worker)` before acting. -/
def timeoutFire (s : PoolState) (w : WId) (t : TId) : PoolState :=
  match getTask s t with
  | none => s
  | some r =>
    if ¬ r.timerArmed then s
    else
      let s0 := clearTaskTimeout s t   -- the one-shot timer is spent
      match mapGet s0.pending w with
      | none => s0
      | some _ =>
          let s3 := trySettle (taskIdsDel (pendingDel s0 w) t) t
            (.err ("@esportsplus/workers: task timed out after " ++ toString r.timeout ++ "ms"))
          let c := createWorker (replaceWorker s3 w)
          processQueue (pushAvailable c.2 c.1)

/-- The abort listener registered by `schedule` for the task's signal; it
fires at most once (`{ once: true }`). -/
def abortFire (s : PoolState) (t : TId) : PoolState :=
  match getTask s t with
  | none => s
  | some r =>
    if ¬ (r.hasSignal ∧ r.listenerActive) then s
    else
      let s0 := setTask s t (fun r => { r with listenerActive := false, aborted := true })
      let s1 :=
        match s0.pending.find? (fun q => decide (q.2 = t)) with
        | some wt =>
            let sC := taskIdsDel (pendingDel (clearTaskTimeout s0 t) wt.1) t
            let c := createWorker (replaceWorker sC wt.1)
            processQueue (pushAvailable c.2 c.1)
        | none => s0
      trySettle s1 t (.err "@esportsplus/workers: task aborted")

/-- An idle timer firing for `worker`. -/
def idleFire (s : PoolState) (w : WId) : PoolState :=
  if s.idleTimers.contains w then replaceWorker (idleDel s w) w
  else s

/-- The arguments of one `schedule(path, values, options)` call, together
with the uuid the call draws. -/
structure SchedReq where
  path : String
  values : List Nat
  hasSignal : Bool
  signalAborted : Bool
  timeout : Nat
  tid : TId
  deriving DecidableEq

/-- The task record `schedule` constructs. -/
def newTask (rq : SchedReq) : TaskRec :=
  { aborted := false, retained := false, timeout := rq.timeout,
    timerArmed := false, hasSignal := rq.hasSignal, listenerActive := false,
    settled := none, path := rq.path, values := rq.values }

/-- `schedule(path, values, options)`. -/
def schedule (s : PoolState) (rq : SchedReq) : PoolState :=
  if s.store.any (fun q => decide (q.1 = rq.tid)) then s  -- uuid() cannot collide
  else
    let s0 := storeAdd s rq.tid (newTask rq)
    if s0.cleanup then
      trySettle s0 rq.tid (.err "@esportsplus/workers: pool is shutting down")
    else if rq.hasSignal ∧ rq.signalAborted then
      trySettle s0 rq.tid (.err "@esportsplus/workers: task aborted")
    else
      let s1 :=
        if rq.hasSignal then setTask s0 rq.tid (fun r => { r with listenerActive := true })
        else s0
      match s1.available with
      | w :: rest => dispatch (clearIdleTimer (setAvailable s1 rest) w) w rq.tid
      | [] =>
          if (s1.workers.length : Int) < s1.limit then
            let c := createWorker s1
            dispatch (clearIdleTimer c.2 c.1) c.1 rq.tid
          else
            queueAdd s1 rq.tid

/-- `shutdown()`. -/
def shutdown (s : PoolState) : PoolState :=
  let s1 := idleClear s
  let s2 := s1.queue.foldl
    (fun acc t => trySettle acc t (.err "@esportsplus/workers: pool closing")) s1
  let s3 := setQueue s2 []
  let s4 := sendFrames s3
    ((s3.pending.filter (fun (q : WId × TId) => taskRetained s3 q.2)).map
      (fun (q : WId × TId) => (q.1, PFrame.releaseF q.2)))
  if s4.pending = [] then cleanupRun (setCleanup s4)
  else setCleanup s4

/-- The events the environment can deliver to the scheduler. -/
inductive PEvent where
  | msg : WId → InFrame → PEvent
  | werror : WId → Option String → PEvent
  | timeoutF : WId → TId → PEvent
  | abortF : TId → PEvent
  | idleF : WId → PEvent
  | sched : SchedReq → PEvent
  | shutdownE : PEvent
  deriving DecidableEq

/-- One handler running to completion. -/
def step (s : PoolState) : PEvent → PoolState
  | .msg w fr => onMessage s w fr
  | .werror w m => onError s w m
  | .timeoutF w t => timeoutFire s w t
  | .abortF t => abortFire s t
  | .idleF w => idleFire s w
  | .sched rq => schedule s rq
  | .shutdownE => shutdown s

/-- A whole interleaving of handler activations. -/
def run (s : PoolState) : List PEvent → PoolState
  | [] => s
  | e :: es => run (step s e) es

end Workers

namespace Workers

/-! ### Settlement is only ever written through `trySettle`

Every helper below leaves `taskSettled` unchanged; `trySettle` is monotone:
a settled handle stays settled with the same outcome. -/

/-- In-place update of one map entry, seen through `mapGet`. -/
theorem mapGet_mapEntry {κ α : Type} [DecidableEq κ] (m : List (κ × α)) (k : κ)
    (f : α → α) (p : κ) :
    mapGet (m.map (fun q => if q.1 = k then (k, f q.2) else q)) p =
      if k = p then (mapGet m k).map f else mapGet m p := by
  induction m with
  | nil => by_cases h : k = p <;> simp [mapGet_nil, h]
  | cons q t ih =>
      rcases q with ⟨qk, qv⟩
      by_cases hq : qk = k
      · subst hq
        by_cases hkp : qk = p
        · subst hkp
          simp [mapGet_cons, ih]
        · simp [mapGet_cons, hkp, ih]
      · by_cases hkp : k = p
        · have hqp : ¬ qk = p := fun hx => hq (by rw [hx, hkp])
          subst hkp
          simp [mapGet_cons, hq, hqp, ih]
        · by_cases hqp : qk = p
          · subst hqp
            simp [mapGet_cons, hq, hkp, ih]
          · simp [mapGet_cons, hq, hqp, hkp, ih]

theorem getTask_setTask (s : PoolState) (t2 : TId) (f : TaskRec → TaskRec) (t : TId) :
    getTask (setTask s t2 f) t =
      if t2 = t then (getTask s t2).map f else getTask s t :=
  mapGet_mapEntry s.store t2 f t

/-- `setTask` with a settlement-preserving update leaves every handle's
settlement unchanged. -/
theorem taskSettled_setTask (s : PoolState) (t2 : TId) (f : TaskRec → TaskRec)
    (hf : ∀ r, (f r).settled = r.settled) (t : TId) :
    taskSettled (setTask s t2 f) t = taskSettled s t := by
  unfold taskSettled settledIn
  rw [show (setTask s t2 f).store =
      s.store.map (fun q => if q.1 = t2 then (t2, f q.2) else q) from rfl,
    mapGet_mapEntry]
  by_cases h : t2 = t
  · subst h
    rw [if_pos rfl]
    cases hg : mapGet s.store t2 with
    | none => rfl
    | some r => exact hf r
  · rw [if_neg h]

theorem taskSettled_clearTaskTimeout (s : PoolState) (t2 t : TId) :
    taskSettled (clearTaskTimeout s t2) t = taskSettled s t := by
  unfold clearTaskTimeout
  refine taskSettled_setTask s t2 _ ?hf t
  exact fun _ => rfl

theorem taskSettled_setRetained (s : PoolState) (u t : TId) :
    taskSettled (setTask s u (fun r => { r with timerArmed := false, retained := true })) t
      = taskSettled s t :=
  taskSettled_setTask s u (fun r => { r with timerArmed := false, retained := true })
    (fun _ => rfl) t

theorem taskSettled_setListener (s : PoolState) (u t : TId) :
    taskSettled (setTask s u (fun r => { r with listenerActive := true })) t
      = taskSettled s t :=
  taskSettled_setTask s u (fun r => { r with listenerActive := true }) (fun _ => rfl) t

theorem taskSettled_setAborted (s : PoolState) (u t : TId) :
    taskSettled (setTask s u (fun r => { r with listenerActive := false, aborted := true })) t
      = taskSettled s t :=
  taskSettled_setTask s u (fun r => { r with listenerActive := false, aborted := true })
    (fun _ => rfl) t

theorem taskSettled_armTimer (s : PoolState) (t2 t : TId) :
    taskSettled (armTimer s t2) t = taskSettled s t := by
  unfold armTimer
  split
  · split
    · exact taskSettled_setTask s t2 (fun r => { r with timerArmed := true }) (fun _ => rfl) t
    · rfl
  · rfl

theorem taskSettled_pushAvailable (s : PoolState) (w : WId) (t : TId) :
    taskSettled (pushAvailable s w) t = taskSettled s t := rfl
theorem taskSettled_setAvailable (s : PoolState) (a : List WId) (t : TId) :
    taskSettled (setAvailable s a) t = taskSettled s t := rfl
theorem taskSettled_availErase (s : PoolState) (w : WId) (t : TId) :
    taskSettled (availErase s w) t = taskSettled s t := rfl
theorem taskSettled_workersAdd (s : PoolState) (w : WId) (t : TId) :
    taskSettled (workersAdd s w) t = taskSettled s t := rfl
theorem taskSettled_workersErase (s : PoolState) (w : WId) (t : TId) :
    taskSettled (workersErase s w) t = taskSettled s t := rfl
theorem taskSettled_pendingSet (s : PoolState) (w : WId) (t2 t : TId) :
    taskSettled (pendingSet s w t2) t = taskSettled s t := rfl
theorem taskSettled_pendingDel (s : PoolState) (w : WId) (t : TId) :
    taskSettled (pendingDel s w) t = taskSettled s t := rfl
theorem taskSettled_taskIdsAdd (s : PoolState) (t2 t : TId) :
    taskSettled (taskIdsAdd s t2) t = taskSettled s t := rfl
theorem taskSettled_taskIdsDel (s : PoolState) (t2 t : TId) :
    taskSettled (taskIdsDel s t2) t = taskSettled s t := rfl
theorem taskSettled_setQueue (s : PoolState) (q : List TId) (t : TId) :
    taskSettled (setQueue s q) t = taskSettled s t := rfl
theorem taskSettled_queueAdd (s : PoolState) (t2 t : TId) :
    taskSettled (queueAdd s t2) t = taskSettled s t := rfl
theorem taskSettled_idleDel (s : PoolState) (w : WId) (t : TId) :
    taskSettled (idleDel s w) t = taskSettled s t := rfl
theorem taskSettled_idleArm (s : PoolState) (w : WId) (t : TId) :
    taskSettled (idleArm s w) t = taskSettled s t := rfl
theorem taskSettled_idleClear (s : PoolState) (t : TId) :
    taskSettled (idleClear s) t = taskSettled s t := rfl
theorem taskSettled_bumpCompleted (s : PoolState) (t : TId) :
    taskSettled (bumpCompleted s) t = taskSettled s t := rfl
theorem taskSettled_bumpNextW (s : PoolState) (t : TId) :
    taskSettled (bumpNextW s) t = taskSettled s t := rfl
theorem taskSettled_setCleanup (s : PoolState) (t : TId) :
    taskSettled (setCleanup s) t = taskSettled s t := rfl
theorem taskSettled_sendFrame (s : PoolState) (w : WId) (f : PFrame) (t : TId) :
    taskSettled (sendFrame s w f) t = taskSettled s t := rfl
theorem taskSettled_sendFrames (s : PoolState) (fs : List (WId × PFrame)) (t : TId) :
    taskSettled (sendFrames s fs) t = taskSettled s t := rfl
theorem taskSettled_logTerminated (s : PoolState) (w : WId) (t : TId) :
    taskSettled (logTerminated s w) t = taskSettled s t := rfl
theorem taskSettled_logCreated (s : PoolState) (w : WId) (t : TId) :
    taskSettled (logCreated s w) t = taskSettled s t := rfl
theorem taskSettled_logSettled (s : PoolState) (t2 t : TId) :
    taskSettled (logSettled s t2) t = taskSettled s t := rfl
theorem taskSettled_clearIdleTimer (s : PoolState) (w : WId) (t : TId) :
    taskSettled (clearIdleTimer s w) t = taskSettled s t := rfl
theorem taskSettled_cleanupRun (s : PoolState) (t : TId) :
    taskSettled (cleanupRun s) t = taskSettled s t := rfl
theorem taskSettled_createWorker (s : PoolState) (t : TId) :
    taskSettled (createWorker s).2 t = taskSettled s t := rfl
theorem taskSettled_replaceWorker (s : PoolState) (w : WId) (t : TId) :
    taskSettled (replaceWorker s w) t = taskSettled s t := rfl

theorem taskSettled_markAvailable (s : PoolState) (w : WId) (t : TId) :
    taskSettled (markAvailable s w) t = taskSettled s t := by
  simp only [markAvailable]
  split <;> rfl

theorem taskSettled_dispatchNA (s : PoolState) (w : WId) (t2 t : TId) :
    taskSettled (dispatchNA s w t2) t = taskSettled s t := by
  unfold dispatchNA
  simp only [taskSettled_sendFrame, taskSettled_armTimer, taskSettled_taskIdsAdd,
    taskSettled_pendingSet, taskSettled_clearIdleTimer]

theorem taskSettled_processQueue (s : PoolState) (t : TId) :
    taskSettled (processQueue s) t = taskSettled s t := by
  unfold processQueue
  split
  · rfl
  · split
    · rfl
    · split
      · rfl
      · simp only [taskSettled_dispatchNA, taskSettled_setQueue, taskSettled_setAvailable]

theorem taskSettled_dispatch (s : PoolState) (w : WId) (t2 t : TId) :
    taskSettled (dispatch s w t2) t = taskSettled s t := by
  unfold dispatch
  split
  · simp only [taskSettled_processQueue, taskSettled_markAvailable]
  · exact taskSettled_dispatchNA s w t2 t

/-- `trySettle` never unsettles or changes an already settled handle. -/
theorem taskSettled_trySettle_mono (s : PoolState) (t2 : TId) (o2 : Outcome)
    (t : TId) (o : Outcome) (h : taskSettled s t = some o) :
    taskSettled (trySettle s t2 o2) t = some o := by
  unfold trySettle
  by_cases hc : (getTask s t2).isSome ∧ taskSettled s t2 = none
  · rw [if_pos hc]
    have hne : ¬ t2 = t := by
      intro he
      rw [he, h] at hc
      cases hc.2
    rw [taskSettled_logSettled]
    have hx : taskSettled (setTask s t2 fun r => { r with settled := some o2 }) t
        = taskSettled s t := by
      unfold taskSettled settledIn
      rw [show (setTask s t2 fun r => { r with settled := some o2 }).store =
          s.store.map (fun q =>
            if q.1 = t2 then (t2, { q.2 with settled := some o2 }) else q) from rfl]
      rw [mapGet_mapEntry s.store t2 (fun r => { r with settled := some o2 }) t,
        if_neg hne]
    rw [hx]
    exact h
  · rw [if_neg hc]
    exact h

end Workers

namespace Workers

theorem taskSettled_onMessage_mono (s : PoolState) (w : WId) (fr : InFrame)
    (t : TId) (o : Outcome) (h : taskSettled s t = some o) :
    taskSettled (onMessage s w fr) t = some o := by
  unfold onMessage
  split
  · exact h
  · split
    · exact h
    · split
      · exact h
      · split
        · exact h
        · split
          · rw [taskSettled_setRetained]
            exact h
          · simp only [taskSettled_processQueue]
            split
            · rw [taskSettled_cleanupRun, taskSettled_markAvailable]
              split
              · refine taskSettled_trySettle_mono _ _ _ _ _ ?h1
                simp only [taskSettled_bumpCompleted, taskSettled_taskIdsDel,
                  taskSettled_pendingDel, taskSettled_clearTaskTimeout]
                exact h
              · refine taskSettled_trySettle_mono _ _ _ _ _ ?h2
                simp only [taskSettled_bumpCompleted, taskSettled_taskIdsDel,
                  taskSettled_pendingDel, taskSettled_clearTaskTimeout]
                exact h
            · rw [taskSettled_markAvailable]
              split
              · refine taskSettled_trySettle_mono _ _ _ _ _ ?h3
                simp only [taskSettled_bumpCompleted, taskSettled_taskIdsDel,
                  taskSettled_pendingDel, taskSettled_clearTaskTimeout]
                exact h
              · refine taskSettled_trySettle_mono _ _ _ _ _ ?h4
                simp only [taskSettled_bumpCompleted, taskSettled_taskIdsDel,
                  taskSettled_pendingDel, taskSettled_clearTaskTimeout]
                exact h

theorem taskSettled_onError_mono (s : PoolState) (w : WId) (msg : Option String)
    (t : TId) (o : Outcome) (h : taskSettled s t = some o) :
    taskSettled (onError s w msg) t = some o := by
  unfold onError
  simp only [taskSettled_processQueue, taskSettled_replaceWorker]
  split
  · refine taskSettled_trySettle_mono _ _ _ _ _ ?h1
    simp only [taskSettled_taskIdsDel, taskSettled_pendingDel, taskSettled_clearTaskTimeout]
    exact h
  · exact h

theorem taskSettled_timeoutFire_mono (s : PoolState) (w : WId) (t2 : TId)
    (t : TId) (o : Outcome) (h : taskSettled s t = some o) :
    taskSettled (timeoutFire s w t2) t = some o := by
  unfold timeoutFire
  split
  · exact h
  · split
    · exact h
    · simp only []
      split
      · rw [taskSettled_clearTaskTimeout]
        exact h
      · simp only [taskSettled_processQueue, taskSettled_pushAvailable,
          taskSettled_createWorker, taskSettled_replaceWorker]
        refine taskSettled_trySettle_mono _ _ _ _ _ ?h1
        simp only [taskSettled_taskIdsDel, taskSettled_pendingDel, taskSettled_clearTaskTimeout]
        exact h

theorem taskSettled_abortFire_mono (s : PoolState) (t2 : TId)
    (t : TId) (o : Outcome) (h : taskSettled s t = some o) :
    taskSettled (abortFire s t2) t = some o := by
  unfold abortFire
  split
  · exact h
  · split
    · exact h
    · refine taskSettled_trySettle_mono _ _ _ _ _ ?h1
      split
      · simp only [taskSettled_processQueue, taskSettled_pushAvailable,
          taskSettled_createWorker, taskSettled_replaceWorker, taskSettled_taskIdsDel,
          taskSettled_pendingDel, taskSettled_clearTaskTimeout, taskSettled_setAborted]
        exact h
      · rw [taskSettled_setAborted]
        exact h

theorem taskSettled_idleFire_mono (s : PoolState) (w : WId)
    (t : TId) (o : Outcome) (h : taskSettled s t = some o) :
    taskSettled (idleFire s w) t = some o := by
  unfold idleFire
  split
  · rw [taskSettled_replaceWorker, taskSettled_idleDel]
    exact h
  · exact h

/-- Adding a fresh task to the heap does not change any existing handle. -/
theorem taskSettled_storeAdd_fresh (s : PoolState) (tid : TId) (r : TaskRec)
    (hfresh : ¬ s.store.any (fun q => decide (q.1 = tid)) = true)
    (t : TId) (o : Outcome) (h : taskSettled s t = some o) :
    taskSettled (storeAdd s tid r) t = some o := by
  have hne : ¬ tid = t := by
    intro he
    subst he
    unfold taskSettled settledIn at h
    rw [mapGet_eq_none_of_not_any s.store tid hfresh] at h
    cases h
  unfold taskSettled settledIn at h ⊢
  rw [show (storeAdd s tid r).store = (tid, r) :: s.store from rfl, mapGet_cons]
  simp only []
  rw [if_neg hne]
  exact h

theorem taskSettled_schedule_mono (s : PoolState) (rq : SchedReq)
    (t : TId) (o : Outcome) (h : taskSettled s t = some o) :
    taskSettled (schedule s rq) t = some o := by
  unfold schedule
  split
  · exact h
  · next hfresh =>
      simp only []
      have h0 : taskSettled (storeAdd s rq.tid (newTask rq)) t = some o :=
        taskSettled_storeAdd_fresh s rq.tid (newTask rq) hfresh t o h
      by_cases hcl : (storeAdd s rq.tid (newTask rq)).cleanup = true
      · rw [if_pos hcl]
        exact taskSettled_trySettle_mono _ _ _ _ _ h0
      · rw [if_neg hcl]
        by_cases hsig : rq.hasSignal = true ∧ rq.signalAborted = true
        · rw [if_pos hsig]
          exact taskSettled_trySettle_mono _ _ _ _ _ h0
        · rw [if_neg hsig]
          have h1 : taskSettled
              (if rq.hasSignal = true then
                setTask (storeAdd s rq.tid (newTask rq)) rq.tid
                  (fun r => { r with listenerActive := true })
              else storeAdd s rq.tid (newTask rq)) t = some o := by
            split
            · rw [taskSettled_setListener]
              exact h0
            · exact h0
          have hl : ∀ s2 : PoolState, taskSettled s2 t = some o →
              taskSettled
                (match s2.available with
                 | w :: rest => dispatch (clearIdleTimer (setAvailable s2 rest) w) w rq.tid
                 | [] =>
                     if (s2.workers.length : Int) < s2.limit then
                       let c := createWorker s2
                       dispatch (clearIdleTimer c.2 c.1) c.1 rq.tid
                     else queueAdd s2 rq.tid) t = some o := by
            intro s2 h3
            split
            · simp only [taskSettled_dispatch, taskSettled_clearIdleTimer,
                taskSettled_setAvailable]
              exact h3
            · split
              · simp only [taskSettled_dispatch, taskSettled_clearIdleTimer,
                  taskSettled_createWorker]
                exact h3
              · rw [taskSettled_queueAdd]
                exact h3
          exact hl _ h1

theorem taskSettled_foldTrySettle_mono (l : List TId) (o2 : Outcome)
    (s : PoolState) (t : TId) (o : Outcome) (h : taskSettled s t = some o) :
    taskSettled (l.foldl (fun acc x => trySettle acc x o2) s) t = some o := by
  induction l generalizing s with
  | nil => exact h
  | cons x xs ih =>
      rw [List.foldl_cons]
      exact ih _ (taskSettled_trySettle_mono s x o2 t o h)

theorem taskSettled_shutdown_mono (s : PoolState)
    (t : TId) (o : Outcome) (h : taskSettled s t = some o) :
    taskSettled (shutdown s) t = some o := by
  unfold shutdown
  have h2 : taskSettled
      ((idleClear s).queue.foldl
        (fun acc x => trySettle acc x (.err "@esportsplus/workers: pool closing"))
        (idleClear s)) t = some o := by
    refine taskSettled_foldTrySettle_mono _ _ _ _ _ ?h1
    rw [taskSettled_idleClear]
    exact h
  simp only []
  split
  · rw [taskSettled_cleanupRun, taskSettled_setCleanup, taskSettled_sendFrames,
      taskSettled_setQueue]
    exact h2
  · rw [taskSettled_setCleanup, taskSettled_sendFrames, taskSettled_setQueue]
    exact h2

/-- No single handler activation re-settles or alters a settled handle. -/
theorem taskSettled_step_mono (s : PoolState) (e : PEvent)
    (t : TId) (o : Outcome) (h : taskSettled s t = some o) :
    taskSettled (step s e) t = some o := by
  cases e with
  | msg w fr => exact taskSettled_onMessage_mono s w fr t o h
  | werror w m => exact taskSettled_onError_mono s w m t o h
  | timeoutF w t2 => exact taskSettled_timeoutFire_mono s w t2 t o h
  | abortF t2 => exact taskSettled_abortFire_mono s t2 t o h
  | idleF w => exact taskSettled_idleFire_mono s w t o h
  | sched rq => exact taskSettled_schedule_mono s rq t o h
  | shutdownE => exact taskSettled_shutdown_mono s t o h

end Workers

/-- **C1.**  A settled task handle stays settled with the same outcome under
every interleaving of worker reply frames, worker error events, timeout
firings, abort firings, idle-timer firings, further `schedule` calls and
`shutdown`: once a handle has settled, no event sequence settles it again or
changes the outcome — every settlement path funnels through the promise's
first-call-wins `resolve`/`reject`, and each handler removes the task from
`tasks`/`pending` before settling it. -/
theorem C1_settle_at_most_once (es : List Workers.PEvent) (s : Workers.PoolState)
    (t : Workers.TId) (o : Workers.Outcome)
    (h : Workers.taskSettled s t = some o) :
    Workers.taskSettled (Workers.run s es) t = some o := by
  induction es generalizing s with
  | nil => exact h
  | cons e es ih =>
      rw [Workers.run]
      exact ih _ (Workers.taskSettled_step_mono s e t o h)

/-- **C1, witness.**  A pool with one executing task whose handle already
resolved with `5`: firing the task's abort signal afterwards leaves the
handle resolved with `5`. -/
theorem C1_settle_at_most_once_witness :
    Workers.taskSettled
      (Workers.run
        { available := [], workers := [1], pending := [(1, 0)], taskIds := [0],
          queue := [],
          store := [(0, { aborted := false, retained := false, timeout := 0,
                          timerArmed := false, hasSignal := true,
                          listenerActive := true,
                          settled := some (.ok (some 5)), path := "f",
                          values := [] })],
          idleTimers := [], idleTimeout := 0, limit := 2, completed := 0,
          cleanup := false, nextW := 2, sent := [], log := [] }
        [Workers.PEvent.abortF 0])
      0 = some (Workers.Outcome.ok (some 5)) :=
  C1_settle_at_most_once [Workers.PEvent.abortF 0] _ 0 _ (by decide)

namespace Workers

theorem getTask_storeAdd_self (s : PoolState) (tid : TId) (r : TaskRec) :
    getTask (storeAdd s tid r) tid = some r := by
  unfold getTask
  rw [show (storeAdd s tid r).store = (tid, r) :: s.store from rfl, mapGet_cons]
  simp

theorem taskSettled_storeAdd_self (s : PoolState) (tid : TId) (r : TaskRec) :
    taskSettled (storeAdd s tid r) tid = r.settled := by
  unfold taskSettled settledIn
  rw [show (storeAdd s tid r).store = (tid, r) :: s.store from rfl, mapGet_cons]
  simp

theorem taskSettled_setTask_self (s : PoolState) (tid : TId) (f : TaskRec → TaskRec)
    (r : TaskRec) (hg : getTask s tid = some r) :
    taskSettled (setTask s tid f) tid = (f r).settled := by
  have h1 := getTask_setTask s tid f tid
  rw [if_pos rfl, hg] at h1
  unfold taskSettled settledIn
  unfold getTask at h1
  rw [h1]
  rfl

/-- When the task exists and is unsettled, `trySettle` reduces to the
settlement write plus the log entry. -/
theorem trySettle_success (s : PoolState) (t : TId) (o : Outcome)
    (hg : (getTask s t).isSome = true) (hn : taskSettled s t = none) :
    trySettle s t o =
      logSettled (setTask s t (fun r => { r with settled := some o })) t := by
  unfold trySettle
  rw [if_pos ⟨hg, hn⟩]

theorem taskSettled_trySettle_self (s : PoolState) (t : TId) (o : Outcome)
    (r : TaskRec) (hg : getTask s t = some r) (hn : taskSettled s t = none) :
    taskSettled (trySettle s t o) t = some o := by
  rw [trySettle_success s t o (by rw [hg]; rfl) hn, taskSettled_logSettled,
    taskSettled_setTask_self s t _ r hg]

end Workers

/-- **C5, counterexample.**  Scheduling into a shutting-down pool settles the
handle with the message `pool is shutting down` (prefixed with the library
name) — not `pool closing`, which the code reserves for tasks drained from
the queue during `shutdown()`; so the claim's quoted message is wrong. -/
theorem C5_counterexample :
    Workers.taskSettled
        (Workers.schedule
          { available := [], workers := [], pending := [], taskIds := [],
            queue := [], store := [], idleTimers := [], idleTimeout := 0,
            limit := 1, completed := 0, cleanup := true, nextW := 0,
            sent := [], log := [] }
          { path := "f", values := [], hasSignal := false,
            signalAborted := false, timeout := 0, tid := 0 })
        0 = some (.err "@esportsplus/workers: pool is shutting down") ∧
      "@esportsplus/workers: pool is shutting down" ≠ "pool closing" ∧
      "@esportsplus/workers: pool is shutting down" ≠
        "@esportsplus/workers: pool closing" := by
  refine ⟨?_, by decide, by decide⟩
  decide

/-- **C5, amended.**  When `schedule` is called while the pool is shutting
down, the task handle settles as a failure with the message
`@esportsplus/workers: pool is shutting down` (not `pool closing`), the call
returns, and no frame is sent to any worker — `sent`, `pending`, `queue`,
`workers` and `available` are all unchanged. -/
theorem C5_amended (s : Workers.PoolState) (rq : Workers.SchedReq)
    (hcl : s.cleanup = true)
    (hfresh : ¬ s.store.any (fun q => decide (q.1 = rq.tid)) = true) :
    Workers.taskSettled (Workers.schedule s rq) rq.tid =
        some (.err "@esportsplus/workers: pool is shutting down") ∧
      (Workers.schedule s rq).sent = s.sent ∧
      (Workers.schedule s rq).pending = s.pending ∧
      (Workers.schedule s rq).queue = s.queue ∧
      (Workers.schedule s rq).workers = s.workers ∧
      (Workers.schedule s rq).available = s.available := by
  have hred : Workers.schedule s rq =
      Workers.trySettle (Workers.storeAdd s rq.tid (Workers.newTask rq)) rq.tid
        (.err "@esportsplus/workers: pool is shutting down") := by
    unfold Workers.schedule
    rw [if_neg hfresh]
    simp only []
    rw [if_pos (show (Workers.storeAdd s rq.tid (Workers.newTask rq)).cleanup = true
      from hcl)]
  have hsucc := Workers.trySettle_success
    (Workers.storeAdd s rq.tid (Workers.newTask rq)) rq.tid
    (.err "@esportsplus/workers: pool is shutting down")
    (by rw [Workers.getTask_storeAdd_self]; rfl)
    (by rw [Workers.taskSettled_storeAdd_self]; rfl)
  rw [hred, hsucc]
  refine ⟨?_, rfl, rfl, rfl, rfl, rfl⟩
  rw [Workers.taskSettled_logSettled,
    Workers.taskSettled_setTask_self _ _ _ (Workers.newTask rq)
      (Workers.getTask_storeAdd_self s rq.tid (Workers.newTask rq))]

/-- **C5, amended, witness.** -/
theorem C5_amended_witness :
    Workers.taskSettled
        (Workers.schedule
          { available := [], workers := [], pending := [], taskIds := [],
            queue := [], store := [], idleTimers := [], idleTimeout := 0,
            limit := 1, completed := 0, cleanup := true, nextW := 0,
            sent := [], log := [] }
          { path := "g", values := [1], hasSignal := false,
            signalAborted := false, timeout := 0, tid := 3 })
        3 = some (.err "@esportsplus/workers: pool is shutting down") :=
  (C5_amended _ _ rfl (by decide)).1

namespace Workers

/-! ### Projection lemmas used to track workers, pending, tasks and the log
through a queue re-drive -/

theorem drainAborted_mem (s : PoolState) :
    ∀ (q : List TId) (t2 : TId) (q2 : List TId),
      drainAborted s q = (some t2, q2) → t2 ∈ q := by
  intro q
  induction q with
  | nil =>
      intro t2 q2 h
      cases h
  | cons x rest ih =>
      intro t2 q2 h
      unfold drainAborted at h
      by_cases hab : taskAborted s x = true
      · rw [if_pos hab] at h
        exact List.mem_cons_of_mem x (ih t2 q2 h)
      · rw [if_neg hab] at h
        cases h
        exact List.mem_cons_self x rest

theorem workers_dispatchNA (s : PoolState) (w : WId) (t2 : TId) :
    (dispatchNA s w t2).workers = s.workers := by
  unfold dispatchNA armTimer
  simp only []
  split
  · split <;> rfl
  · rfl

theorem log_dispatchNA (s : PoolState) (w : WId) (t2 : TId) :
    (dispatchNA s w t2).log = s.log := by
  unfold dispatchNA armTimer
  simp only []
  split
  · split <;> rfl
  · rfl

theorem taskIds_dispatchNA (s : PoolState) (w : WId) (t2 : TId) :
    (dispatchNA s w t2).taskIds =
      if s.taskIds.contains t2 = true then s.taskIds else s.taskIds ++ [t2] := by
  unfold dispatchNA armTimer
  simp only []
  split
  · split <;> rfl
  · rfl

theorem pendingGet_dispatchNA (s : PoolState) (w : WId) (t2 : TId) (x : WId)
    (hx : ¬ w = x) :
    mapGet (dispatchNA s w t2).pending x = mapGet s.pending x := by
  have hcomm : ∀ s2 : PoolState, s2.pending = mapSet s.pending w t2 →
      mapGet s2.pending x = mapGet s.pending x := by
    intro s2 h2
    rw [h2, mapGet_mapSet, if_neg hx]
  unfold dispatchNA armTimer
  simp only []
  split
  · split
    · exact hcomm _ rfl
    · exact hcomm _ rfl
  · exact hcomm _ rfl

theorem getTask_dispatchNA (s : PoolState) (w : WId) (t2 : TId) (t : TId)
    (hne : ¬ t2 = t) :
    getTask (dispatchNA s w t2) t = getTask s t := by
  unfold dispatchNA armTimer
  simp only []
  split
  · split
    · have h2 : getTask
          (setTask (taskIdsAdd (pendingSet (clearIdleTimer s w) w t2) t2) t2
            (fun r => { r with timerArmed := true })) t = getTask s t := by
        rw [getTask_setTask, if_neg hne]
        rfl
      exact h2
    · rfl
  · rfl

theorem workers_processQueue (s : PoolState) :
    (processQueue s).workers = s.workers := by
  unfold processQueue
  split
  · rfl
  · split
    · rfl
    · split
      · rfl
      · exact (workers_dispatchNA _ _ _).trans rfl

theorem log_processQueue (s : PoolState) :
    (processQueue s).log = s.log := by
  unfold processQueue
  split
  · rfl
  · split
    · rfl
    · split
      · rfl
      · exact (log_dispatchNA _ _ _).trans rfl

theorem pendingGet_processQueue (s : PoolState) (x : WId)
    (hx : ∀ w0 rest, s.available = w0 :: rest → ¬ w0 = x) :
    mapGet (processQueue s).pending x = mapGet s.pending x := by
  unfold processQueue
  split
  · rfl
  · split
    · rfl
    · next w0 avRest heq =>
        split
        · rfl
        · exact (pendingGet_dispatchNA _ _ _ _ (hx w0 avRest heq)).trans rfl

theorem getTask_processQueue (s : PoolState) (t : TId) (hq : t ∉ s.queue) :
    getTask (processQueue s) t = getTask s t := by
  unfold processQueue
  split
  · rfl
  · split
    · rfl
    · split
      · rfl
      · next t2 q2 heq =>
          have ht2 : t2 ∈ s.queue := drainAborted_mem s s.queue t2 q2 heq
          have hne : ¬ t2 = t := fun hx => hq (hx ▸ ht2)
          exact (getTask_dispatchNA _ _ _ _ hne).trans rfl

theorem taskIds_processQueue_notMem (s : PoolState) (t : TId)
    (h1 : t ∉ s.taskIds) (h2 : t ∉ s.queue) :
    t ∉ (processQueue s).taskIds := by
  unfold processQueue
  split
  · exact h1
  · split
    · exact h1
    · split
      · exact h1
      · next t2 q2 heq =>
          have ht2 : t2 ∈ s.queue := drainAborted_mem s s.queue t2 q2 heq
          have hne : ¬ t = t2 := fun hx => h2 (hx ▸ ht2)
          rw [taskIds_dispatchNA]
          show t ∉ (if s.taskIds.contains t2 = true then s.taskIds else s.taskIds ++ [t2])
          split
          · exact h1
          · intro hmem
            rcases List.mem_append.1 hmem with hmem | hmem
            · exact h1 hmem
            · rcases List.mem_singleton.1 hmem with hx
              exact hne hx

/-- A task id never survives its own `taskIdsDel`. -/
theorem not_mem_taskIdsDel (s : PoolState) (t : TId) :
    t ∉ (taskIdsDel s t).taskIds := by
  intro hmem
  have := List.of_mem_filter hmem
  simp at this

end Workers

namespace Workers

/-- **C2.**  When the timeout timer fires for a task still executing (its
worker still in `pending`), the scheduler removes the task from `pending`
and `tasks`, settles the handle as a failure carrying the message
`task timed out after <ms>ms` (under the library's `@esportsplus/workers: `
prefix), terminates the worker, immediately creates a replacement worker so
the worker count is preserved, and finally re-drives the queue
(`processQueue` is the last step, run after termination and replacement). -/
theorem C2_timeout (s : PoolState) (w : WId) (t : TId) (r : TaskRec)
    (hg : getTask s t = some r)
    (harm : r.timerArmed = true)
    (hset : r.settled = none)
    (hpw : mapGet s.pending w = some t)
    (hq : t ∉ s.queue)
    (hw : w ∈ s.workers)
    (hnd : s.workers.Nodup)
    (hfw : ∀ x ∈ s.workers, x < s.nextW) :
    taskSettled (timeoutFire s w t) t =
        some (.err ("@esportsplus/workers: task timed out after "
          ++ toString r.timeout ++ "ms")) ∧
      mapGet (timeoutFire s w t).pending w = none ∧
      t ∉ (timeoutFire s w t).taskIds ∧
      (timeoutFire s w t).workers = (s.workers.erase w) ++ [s.nextW] ∧
      w ∉ (timeoutFire s w t).workers ∧
      (timeoutFire s w t).workers.length = s.workers.length ∧
      LogEvt.terminated w ∈ (timeoutFire s w t).log ∧
      (∃ s3 : PoolState,
        timeoutFire s w t =
          processQueue (pushAvailable (createWorker (replaceWorker s3 w)).2
            (createWorker (replaceWorker s3 w)).1) ∧
        taskSettled s3 t =
          some (.err ("@esportsplus/workers: task timed out after "
            ++ toString r.timeout ++ "ms")) ∧
        mapGet s3.pending w = none ∧
        s3.queue = s.queue) := by
  have hA1 : getTask (taskIdsDel (pendingDel (clearTaskTimeout s t) w) t) t
      = some { r with timerArmed := false } := by
    have h2 : getTask (clearTaskTimeout s t) t = some { r with timerArmed := false } := by
      unfold clearTaskTimeout
      rw [getTask_setTask, if_pos rfl, hg]
      rfl
    exact h2
  have hA2 : taskSettled (taskIdsDel (pendingDel (clearTaskTimeout s t) w) t) t = none := by
    rw [taskSettled_taskIdsDel, taskSettled_pendingDel, taskSettled_clearTaskTimeout]
    unfold taskSettled settledIn
    unfold getTask at hg
    rw [hg]
    exact hset
  have hsucc := trySettle_success (taskIdsDel (pendingDel (clearTaskTimeout s t) w) t) t
    (.err ("@esportsplus/workers: task timed out after " ++ toString r.timeout ++ "ms"))
    (by rw [hA1]; rfl) hA2
  have hred : timeoutFire s w t =
      processQueue (pushAvailable
        (createWorker (replaceWorker
          (trySettle (taskIdsDel (pendingDel (clearTaskTimeout s t) w) t) t
            (.err ("@esportsplus/workers: task timed out after "
              ++ toString r.timeout ++ "ms"))) w)).2
        (createWorker (replaceWorker
          (trySettle (taskIdsDel (pendingDel (clearTaskTimeout s t) w) t) t
            (.err ("@esportsplus/workers: task timed out after "
              ++ toString r.timeout ++ "ms"))) w)).1) := by
    unfold timeoutFire
    rw [hg]
    simp only []
    rw [if_neg (show ¬ ¬ r.timerArmed = true from by simp [harm])]
    rw [show mapGet (clearTaskTimeout s t).pending w = some t from hpw]
  have hsettle : taskSettled
      (trySettle (taskIdsDel (pendingDel (clearTaskTimeout s t) w) t) t
        (.err ("@esportsplus/workers: task timed out after "
          ++ toString r.timeout ++ "ms"))) t =
      some (.err ("@esportsplus/workers: task timed out after "
        ++ toString r.timeout ++ "ms")) :=
    taskSettled_trySettle_self _ t _ { r with timerArmed := false } hA1 hA2
  have hb : taskSettled (timeoutFire s w t) t =
      some (.err ("@esportsplus/workers: task timed out after "
        ++ toString r.timeout ++ "ms")) := by
    rw [hred, taskSettled_processQueue, taskSettled_pushAvailable,
      taskSettled_createWorker, taskSettled_replaceWorker]
    exact hsettle
  have hwne : ¬ w = s.nextW := Nat.ne_of_lt (hfw w hw)
  have hc : mapGet (timeoutFire s w t).pending w = none := by
    rw [hred]
    rw [pendingGet_processQueue]
    · have hp2 : (pushAvailable
          (createWorker (replaceWorker
            (trySettle (taskIdsDel (pendingDel (clearTaskTimeout s t) w) t) t
              (.err ("@esportsplus/workers: task timed out after "
                ++ toString r.timeout ++ "ms"))) w)).2
          (createWorker (replaceWorker
            (trySettle (taskIdsDel (pendingDel (clearTaskTimeout s t) w) t) t
              (.err ("@esportsplus/workers: task timed out after "
                ++ toString r.timeout ++ "ms"))) w)).1).pending
          = mapDel s.pending w := by
        rw [hsucc]
        rfl
      rw [hp2]
      exact mapGet_mapDel_self s.pending w
    · intro w0 rest heq
      have hw0 : w0 = s.nextW := by
        have hav : (pushAvailable
            (createWorker (replaceWorker
              (trySettle (taskIdsDel (pendingDel (clearTaskTimeout s t) w) t) t
                (.err ("@esportsplus/workers: task timed out after "
                  ++ toString r.timeout ++ "ms"))) w)).2
            (createWorker (replaceWorker
              (trySettle (taskIdsDel (pendingDel (clearTaskTimeout s t) w) t) t
                (.err ("@esportsplus/workers: task timed out after "
                  ++ toString r.timeout ++ "ms"))) w)).1).available
            = s.nextW :: ((trySettle (taskIdsDel (pendingDel (clearTaskTimeout s t) w) t) t
                (.err ("@esportsplus/workers: task timed out after "
                  ++ toString r.timeout ++ "ms"))).available.erase w) := by
          rw [hsucc]
          rfl
        rw [hav] at heq
        injection heq with h1 h2
        exact h1.symm
      rw [hw0]
      intro hx
      exact hwne hx.symm
  have hd : t ∉ (timeoutFire s w t).taskIds := by
    rw [hred]
    refine taskIds_processQueue_notMem _ t ?h1 ?h2
    · have ht2 : (pushAvailable
          (createWorker (replaceWorker
            (trySettle (taskIdsDel (pendingDel (clearTaskTimeout s t) w) t) t
              (.err ("@esportsplus/workers: task timed out after "
                ++ toString r.timeout ++ "ms"))) w)).2
          (createWorker (replaceWorker
            (trySettle (taskIdsDel (pendingDel (clearTaskTimeout s t) w) t) t
              (.err ("@esportsplus/workers: task timed out after "
                ++ toString r.timeout ++ "ms"))) w)).1).taskIds
          = (taskIdsDel (pendingDel (clearTaskTimeout s t) w) t).taskIds := by
        rw [hsucc]
        rfl
      rw [ht2]
      exact not_mem_taskIdsDel _ t
    · have ht3 : (pushAvailable
          (createWorker (replaceWorker
            (trySettle (taskIdsDel (pendingDel (clearTaskTimeout s t) w) t) t
              (.err ("@esportsplus/workers: task timed out after "
                ++ toString r.timeout ++ "ms"))) w)).2
          (createWorker (replaceWorker
            (trySettle (taskIdsDel (pendingDel (clearTaskTimeout s t) w) t) t
              (.err ("@esportsplus/workers: task timed out after "
                ++ toString r.timeout ++ "ms"))) w)).1).queue = s.queue := by
        rw [hsucc]
        rfl
      rw [ht3]
      exact hq
  have he : (timeoutFire s w t).workers = (s.workers.erase w) ++ [s.nextW] := by
    rw [hred, workers_processQueue, hsucc]
    rfl
  have hf : w ∉ (timeoutFire s w t).workers := by
    rw [he]
    intro hmem
    rcases List.mem_append.1 hmem with hmem | hmem
    · rw [List.Nodup.mem_erase_iff hnd] at hmem
      exact hmem.1 rfl
    · exact hwne (List.mem_singleton.1 hmem)
  have hlen : (timeoutFire s w t).workers.length = s.workers.length := by
    rw [he, List.length_append, List.length_erase_of_mem hw, List.length_singleton]
    have hpos : 0 < s.workers.length := List.length_pos_of_mem hw
    omega
  have hterm : LogEvt.terminated w ∈ (timeoutFire s w t).log := by
    rw [hred, log_processQueue]
    have hlog : (pushAvailable
        (createWorker (replaceWorker
          (trySettle (taskIdsDel (pendingDel (clearTaskTimeout s t) w) t) t
            (.err ("@esportsplus/workers: task timed out after "
              ++ toString r.timeout ++ "ms"))) w)).2
        (createWorker (replaceWorker
          (trySettle (taskIdsDel (pendingDel (clearTaskTimeout s t) w) t) t
            (.err ("@esportsplus/workers: task timed out after "
              ++ toString r.timeout ++ "ms"))) w)).1).log
        = ((s.log ++ [LogEvt.settledEvt t]) ++ [LogEvt.terminated w])
            ++ [LogEvt.created s.nextW] := by
      rw [hsucc]
      rfl
    rw [hlog]
    simp
  refine ⟨hb, hc, hd, he, hf, hlen, hterm,
    ⟨trySettle (taskIdsDel (pendingDel (clearTaskTimeout s t) w) t) t
      (.err ("@esportsplus/workers: task timed out after "
        ++ toString r.timeout ++ "ms")), hred, hsettle, ?_, ?_⟩⟩
  · rw [hsucc]
    exact mapGet_mapDel_self s.pending w
  · rw [hsucc]
    rfl

end Workers

/-- **C2, witness.**  A pool whose single worker `1` is executing task `0`
with a 20 ms armed timeout: the timer firing settles the handle with the
timeout failure. -/
theorem C2_timeout_witness :
    Workers.taskSettled
      (Workers.timeoutFire
        { available := [], workers := [1], pending := [(1, 0)], taskIds := [0],
          queue := [],
          store := [(0, { aborted := false, retained := false, timeout := 20,
                          timerArmed := true, hasSignal := false,
                          listenerActive := false, settled := none,
                          path := "f", values := [] })],
          idleTimers := [], idleTimeout := 0, limit := 2, completed := 0,
          cleanup := false, nextW := 2, sent := [], log := [] }
        1 0)
      0 = some (.err "@esportsplus/workers: task timed out after 20ms") := by
  have h := (Workers.C2_timeout
    { available := [], workers := [1], pending := [(1, 0)], taskIds := [0],
      queue := [],
      store := [(0, { aborted := false, retained := false, timeout := 20,
                      timerArmed := true, hasSignal := false,
                      listenerActive := false, settled := none,
                      path := "f", values := [] })],
      idleTimers := [], idleTimeout := 0, limit := 2, completed := 0,
      cleanup := false, nextW := 2, sent := [], log := [] }
    1 0
    { aborted := false, retained := false, timeout := 20, timerArmed := true,
      hasSignal := false, listenerActive := false, settled := none,
      path := "f", values := [] }
    (by decide) (by decide) (by decide) (by decide) (by decide) (by decide)
    (by decide) (by decide)).1
  exact h.trans (by decide)

namespace Workers

theorem workers_logSettled_setTask (s : PoolState) (t2 : TId) (f : TaskRec → TaskRec) :
    (logSettled (setTask s t2 f) t2).workers = s.workers := rfl

theorem log_logSettled_setTask (s : PoolState) (t2 : TId) (f : TaskRec → TaskRec) :
    (logSettled (setTask s t2 f) t2).log = s.log ++ [LogEvt.settledEvt t2] := rfl

/-- **C7.**  When the abort signal fires for a task that is currently
executing, the scheduler terminates the assigned worker and creates a
replacement strictly before the handle settles with the cancellation
failure: the action log of the handler is exactly
`terminated w`, then `created nextW`, then `settledEvt t` — and the
replacement preserves the worker list up to substituting the fresh id. -/
theorem C7_abort_order (s : PoolState) (w : WId) (t : TId) (r : TaskRec)
    (hg : getTask s t = some r)
    (hsig : r.hasSignal = true)
    (hact : r.listenerActive = true)
    (hset : r.settled = none)
    (hfind : s.pending.find? (fun q => decide (q.2 = t)) = some (w, t))
    (hq : t ∉ s.queue)
    (hw : w ∈ s.workers)
    (hnd : s.workers.Nodup)
    (hfw : ∀ x ∈ s.workers, x < s.nextW) :
    (abortFire s t).log =
        s.log ++ [LogEvt.terminated w, LogEvt.created s.nextW, LogEvt.settledEvt t] ∧
      taskSettled (abortFire s t) t =
        some (.err "@esportsplus/workers: task aborted") ∧
      (abortFire s t).workers = (s.workers.erase w) ++ [s.nextW] ∧
      w ∉ (abortFire s t).workers := by
  have hred : abortFire s t =
      trySettle
        (processQueue (pushAvailable
          (createWorker (replaceWorker
            (taskIdsDel (pendingDel (clearTaskTimeout
              (setTask s t (fun r0 => { r0 with listenerActive := false, aborted := true }))
              t) w) t) w)).2
          (createWorker (replaceWorker
            (taskIdsDel (pendingDel (clearTaskTimeout
              (setTask s t (fun r0 => { r0 with listenerActive := false, aborted := true }))
              t) w) t) w)).1))
        t (.err "@esportsplus/workers: task aborted") := by
    unfold abortFire
    rw [hg]
    simp only []
    rw [if_neg (show ¬ ¬ (r.hasSignal = true ∧ r.listenerActive = true) from by
      simp [hsig, hact])]
    rw [show (setTask s t
        (fun r0 => { r0 with listenerActive := false, aborted := true })).pending.find?
        (fun q => decide (q.2 = t)) = some (w, t) from hfind]
  have hg0 : getTask
      (setTask s t (fun r0 => { r0 with listenerActive := false, aborted := true })) t
      = some { r with listenerActive := false, aborted := true } := by
    rw [getTask_setTask, if_pos rfl, hg]
    rfl
  have hgC : getTask
      (taskIdsDel (pendingDel (clearTaskTimeout
        (setTask s t (fun r0 => { r0 with listenerActive := false, aborted := true }))
        t) w) t) t
      = some { r with listenerActive := false, aborted := true, timerArmed := false } := by
    have h2 : getTask (clearTaskTimeout
        (setTask s t (fun r0 => { r0 with listenerActive := false, aborted := true }))
        t) t
        = some { r with listenerActive := false, aborted := true, timerArmed := false } := by
      unfold clearTaskTimeout
      rw [getTask_setTask, if_pos rfl, hg0]
      rfl
    exact h2
  have hS1g : getTask
      (processQueue (pushAvailable
        (createWorker (replaceWorker
          (taskIdsDel (pendingDel (clearTaskTimeout
            (setTask s t (fun r0 => { r0 with listenerActive := false, aborted := true }))
            t) w) t) w)).2
        (createWorker (replaceWorker
          (taskIdsDel (pendingDel (clearTaskTimeout
            (setTask s t (fun r0 => { r0 with listenerActive := false, aborted := true }))
            t) w) t) w)).1)) t
      = some { r with listenerActive := false, aborted := true, timerArmed := false } := by
    rw [getTask_processQueue]
    · exact hgC
    · exact hq
  have hS1n : taskSettled
      (processQueue (pushAvailable
        (createWorker (replaceWorker
          (taskIdsDel (pendingDel (clearTaskTimeout
            (setTask s t (fun r0 => { r0 with listenerActive := false, aborted := true }))
            t) w) t) w)).2
        (createWorker (replaceWorker
          (taskIdsDel (pendingDel (clearTaskTimeout
            (setTask s t (fun r0 => { r0 with listenerActive := false, aborted := true }))
            t) w) t) w)).1)) t = none := by
    rw [taskSettled_processQueue, taskSettled_pushAvailable, taskSettled_createWorker,
      taskSettled_replaceWorker, taskSettled_taskIdsDel, taskSettled_pendingDel,
      taskSettled_clearTaskTimeout, taskSettled_setAborted]
    unfold taskSettled settledIn
    unfold getTask at hg
    rw [hg]
    exact hset
  have hsucc := trySettle_success
    (processQueue (pushAvailable
      (createWorker (replaceWorker
        (taskIdsDel (pendingDel (clearTaskTimeout
          (setTask s t (fun r0 => { r0 with listenerActive := false, aborted := true }))
          t) w) t) w)).2
      (createWorker (replaceWorker
        (taskIdsDel (pendingDel (clearTaskTimeout
          (setTask s t (fun r0 => { r0 with listenerActive := false, aborted := true }))
          t) w) t) w)).1))
    t (.err "@esportsplus/workers: task aborted")
    (by rw [hS1g]; rfl) hS1n
  have hwne : ¬ w = s.nextW := Nat.ne_of_lt (hfw w hw)
  have hb : taskSettled (abortFire s t) t =
      some (.err "@esportsplus/workers: task aborted") := by
    rw [hred]
    exact taskSettled_trySettle_self _ t _
      { r with listenerActive := false, aborted := true, timerArmed := false } hS1g hS1n
  have hlog : (abortFire s t).log =
      s.log ++ [LogEvt.terminated w, LogEvt.created s.nextW, LogEvt.settledEvt t] := by
    rw [hred, hsucc, log_logSettled_setTask, log_processQueue]
    show ((s.log ++ [LogEvt.terminated w]) ++ [LogEvt.created s.nextW])
        ++ [LogEvt.settledEvt t]
      = s.log ++ [LogEvt.terminated w, LogEvt.created s.nextW, LogEvt.settledEvt t]
    simp
  have hworkers : (abortFire s t).workers = (s.workers.erase w) ++ [s.nextW] := by
    rw [hred, hsucc, workers_logSettled_setTask, workers_processQueue]
    rfl
  have hnw : w ∉ (abortFire s t).workers := by
    rw [hworkers]
    intro hmem
    rcases List.mem_append.1 hmem with hmem | hmem
    · rw [List.Nodup.mem_erase_iff hnd] at hmem
      exact hmem.1 rfl
    · exact hwne (List.mem_singleton.1 hmem)
  exact ⟨hlog, hb, hworkers, hnw⟩

end Workers

/-- **C7, witness.**  A pool whose worker `1` is executing task `0` with an
active abort listener: on abort, the log shows terminate, then replacement
creation, then settlement — termination strictly precedes settlement. -/
theorem C7_abort_order_witness :
    (Workers.abortFire
        { available := [], workers := [1], pending := [(1, 0)], taskIds := [0],
          queue := [],
          store := [(0, { aborted := false, retained := false, timeout := 0,
                          timerArmed := false, hasSignal := true,
                          listenerActive := true, settled := none,
                          path := "f", values := [] })],
          idleTimers := [], idleTimeout := 0, limit := 2, completed := 0,
          cleanup := false, nextW := 2, sent := [], log := [] }
        0).log =
      [Workers.LogEvt.terminated 1, Workers.LogEvt.created 2,
        Workers.LogEvt.settledEvt 0] := by
  have h := (Workers.C7_abort_order
    { available := [], workers := [1], pending := [(1, 0)], taskIds := [0],
      queue := [],
      store := [(0, { aborted := false, retained := false, timeout := 0,
                      timerArmed := false, hasSignal := true,
                      listenerActive := true, settled := none,
                      path := "f", values := [] })],
      idleTimers := [], idleTimeout := 0, limit := 2, completed := 0,
      cleanup := false, nextW := 2, sent := [], log := [] }
    1 0
    { aborted := false, retained := false, timeout := 0, timerArmed := false,
      hasSignal := true, listenerActive := true, settled := none,
      path := "f", values := [] }
    (by decide) (by decide) (by decide) (by decide) (by decide) (by decide)
    (by decide) (by decide) (by decide)).1
  simpa using h
